import Mathlib

/-!
# The PLIC driver of `include/drivers/irq/hifive.h`

A shallow embedding of the RISC-V Platform-Level Interrupt Controller driver.

* `word_t` is 64 bits wide, as the `uint64_t` address operand of the `lw`/`sw`
  instructions in `readl`/`writel` requires: `word_t` values and addresses are
  natural numbers reduced modulo `2 ^ 64`, `uint32_t`/`interrupt_t` values are
  reduced modulo `2 ^ 32`. The `int` loop counters are natural numbers: the loop
  bounds are small platform constants.
* The build-time configuration (`CONFIG_PLAT_HIFIVE`, `ENABLE_SMP_SUPPORT`,
  `CONFIG_FIRST_HART_ID`) and the constants that the header takes from other
  files (`PLIC_PPTR`, `PLIC_MAX_IRQ`, the identity of the executing core) are
  the fields of `Config`.
* `readl` and `writel` are inline assembly: what a load or a store does is
  given by a `Bus`. The driver functions are written once, over any bus, and
  are then run over plain memory (`memBus`), over a bus that records every
  access (`Bus.traced`), and over a model of the controller hardware.
* Every address the driver touches is `PLIC_PPTR_BASE` plus a multiple of four,
  so two accessed words are either the same word or disjoint; memory is
  therefore a map from the address of a word to its 32-bit value.
-/

namespace Plic

/-! ## Machine arithmetic -/

/-- Addition of two `word_t` values. -/
def wadd (a b : Nat) : Nat := (a + b) % 2 ^ 64

/-- Subtraction of two `word_t` values. -/
def wsub (a b : Nat) : Nat := (a % 2 ^ 64 + 2 ^ 64 - b % 2 ^ 64) % 2 ^ 64

/-- Multiplication of two `word_t` values. -/
def wmul (a b : Nat) : Nat := (a * b) % 2 ^ 64

/-- Conversion to `uint32_t`. -/
def u32 (x : Nat) : Nat := x % 2 ^ 32

/-- Modelled from the spec: the generic bit helper `BIT` is defined outside the
driver file; the "corresponding bit" of index `n` is the `unsigned long` mask
`1ul << n`. -/
def BIT (n : Nat) : Nat := (2 ^ n) % 2 ^ 64

/-- Bitwise complement of an `unsigned long`. -/
def wnot (x : Nat) : Nat := 2 ^ 64 - (x % 2 ^ 64 + 1)

/-! ## Configuration -/

/-- Build-time configuration and the constants defined outside the header. -/
structure Config where
  /-- The `#ifdef CONFIG_PLAT_HIFIVE` switch. -/
  CONFIG_PLAT_HIFIVE : Bool
  /-- The `#ifdef ENABLE_SMP_SUPPORT` switch. -/
  ENABLE_SMP_SUPPORT : Bool
  /-- Kernel virtual address constant of `plat/machine/devices_gen.h`. -/
  PLIC_PPTR : Nat
  /-- Hart ID of the boot hart. -/
  CONFIG_FIRST_HART_ID : Nat
  /-- Largest PLIC interrupt number of the kernel's IRQ numbering. -/
  PLIC_MAX_IRQ : Nat
  /-- Value of `cpuIndexToID(getCurrentCPUIndex())` on the executing core. -/
  currentCpuId : Nat

def PLIC_PPTR_BASE (cfg : Config) : Nat := wadd cfg.PLIC_PPTR 0x0C000000

def PLIC_HART_ID (cfg : Config) : Nat := cfg.CONFIG_FIRST_HART_ID

def PLIC_PRIO : Nat := 0x0
def PLIC_PRIO_PER_ID : Nat := 0x4

def PLIC_PENDING : Nat := 0x1000
def PLIC_EN : Nat := 0x2000
def PLIC_EN_PER_HART : Nat := 0x100
def PLIC_EN_PER_CONTEXT : Nat := 0x80

def PLIC_THRES : Nat := 0x200000
def PLIC_SVC_CONTEXT : Nat := 1
def PLIC_THRES_PER_HART : Nat := 0x2000
def PLIC_THRES_PER_CONTEXT : Nat := 0x1000
def PLIC_THRES_CLAIM : Nat := 0x4

def PLIC_NUM_INTERRUPTS (cfg : Config) : Nat :=
  if cfg.CONFIG_PLAT_HIFIVE then 53 else 511

def PLAT_PLIC_THRES_ADJUST (cfg : Config) (x : Nat) : Nat :=
  if cfg.CONFIG_PLAT_HIFIVE then wsub x PLIC_THRES_PER_CONTEXT else x

def PLAT_PLIC_EN_ADJUST (cfg : Config) (x : Nat) : Nat :=
  if cfg.CONFIG_PLAT_HIFIVE then wsub x PLIC_EN_PER_CONTEXT else x

/-! ## Raw access primitives -/

/-- What a 32-bit load and a 32-bit store at an address do to the state `σ` of
the machine: `load addr s` gives the value read and the state after the read,
`store val addr s` the state after the write. -/
structure Bus (σ : Type) where
  load : Nat → σ → Nat × σ
  store : Nat → Nat → σ → σ

/-- The function `readl`: a 32-bit load from a 64-bit address. -/
def readl {σ : Type} (b : Bus σ) (addr : Nat) (s : σ) : Nat × σ :=
  let r := b.load (addr % 2 ^ 64) s
  (u32 r.1, r.2)

/-- The function `writel`: a 32-bit store to a 64-bit address. -/
def writel {σ : Type} (b : Bus σ) (val addr : Nat) (s : σ) : σ :=
  b.store (u32 val) (addr % 2 ^ 64) s

/-- Plain memory: the 32-bit word stored at each word address. -/
abbrev Mem := Nat → Nat

/-- Loads and stores on plain memory: a load returns the word last stored and
changes nothing, a store replaces one word. -/
def memBus : Bus Mem where
  load := fun addr m => (m addr % 2 ^ 32, m)
  store := fun val addr m => fun x => if x = addr then val else m x

/-- One access to the bus. -/
inductive Access where
  | read (addr val : Nat)
  | write (val addr : Nat)
  deriving DecidableEq

/-- The address of an access. -/
def Access.addr : Access → Nat
  | Access.read a _ => a
  | Access.write _ a => a

/-- The bus `b` with a record of every access, oldest first. -/
def Bus.traced {σ : Type} (b : Bus σ) : Bus (σ × List Access) where
  load := fun addr st =>
    let r := b.load addr st.1
    (r.1, (r.2, st.2 ++ [Access.read addr r.1]))
  store := fun val addr st => (b.store val addr st.1, st.2 ++ [Access.write val addr])

/-- A HiFive build: single core, boot hart 1, 53 PLIC interrupts. -/
def hifiveCfg : Config := ⟨true, false, 0xFFFFFFFFC0000000, 1, 53, 1⟩

/-- A build of the general variant for a platform with 30 PLIC interrupts. -/
def generalCfg : Config := ⟨false, false, 0xFFFFFFFFC0000000, 0, 30, 0⟩

/-- A multicore HiFive build, running on the core with hart ID `h`. -/
def smpCfg (h : Nat) : Config := ⟨true, true, 0xFFFFFFFFC0000000, 1, 53, h⟩

/-- Memory in which every word is zero. -/
def zeroMem : Mem := fun _ => 0

/-- Memory in which every bit of every word is one. -/
def fullMem : Mem := fun _ => 0xFFFFFFFF

/-! ## Register layout -/

def plic_enable_offset (cfg : Config) (hart_id context_id : Nat) : Nat :=
  PLAT_PLIC_EN_ADJUST cfg
    (wadd (wadd PLIC_EN (wmul hart_id PLIC_EN_PER_HART)) (wmul context_id PLIC_EN_PER_CONTEXT))

def plic_thres_offset (cfg : Config) (hart_id context_id : Nat) : Nat :=
  PLAT_PLIC_THRES_ADJUST cfg
    (wadd (wadd PLIC_THRES (wmul hart_id PLIC_THRES_PER_HART))
      (wmul context_id PLIC_THRES_PER_CONTEXT))

def plic_claim_offset (cfg : Config) (hart_id context_id : Nat) : Nat :=
  wadd (plic_thres_offset cfg hart_id context_id) PLIC_THRES_CLAIM

/-! ## Interrupt state operations -/

def plic_pending_interrupt {σ : Type} (cfg : Config) (b : Bus σ) (interrupt : Nat) (s : σ) :
    Bool × σ :=
  let addr := wadd (wadd (PLIC_PPTR_BASE cfg) PLIC_PENDING) (wmul (interrupt % 2 ^ 64 / 32) 4)
  let bit := interrupt % 2 ^ 64 % 32
  let r := readl b addr s
  if r.1 &&& BIT bit ≠ 0 then (true, r.2) else (false, r.2)

def get_hart_id (cfg : Config) : Nat :=
  if cfg.ENABLE_SMP_SUPPORT then cfg.currentCpuId else cfg.CONFIG_FIRST_HART_ID

def plic_get_claim {σ : Type} (cfg : Config) (b : Bus σ) (s : σ) : Nat × σ :=
  let hart_id := get_hart_id cfg
  readl b (wadd (PLIC_PPTR_BASE cfg) (plic_claim_offset cfg hart_id PLIC_SVC_CONTEXT)) s

def plic_complete_claim {σ : Type} (cfg : Config) (b : Bus σ) (irq : Nat) (s : σ) : σ :=
  let hart_id := get_hart_id cfg
  writel b (u32 irq) (wadd (PLIC_PPTR_BASE cfg) (plic_claim_offset cfg hart_id PLIC_SVC_CONTEXT)) s

def plic_mask_irq {σ : Type} (cfg : Config) (b : Bus σ) (disable : Bool) (irq : Nat) (s : σ) : σ :=
  let irq := u32 irq
  let hart_id := get_hart_id cfg
  let addr := wadd (wadd (PLIC_PPTR_BASE cfg) (plic_enable_offset cfg hart_id PLIC_SVC_CONTEXT))
    (u32 (irq / 32 * 4))
  let bit := irq % 32
  let r := readl b addr s
  let val := if disable then u32 (r.1 &&& wnot (BIT bit)) else u32 (r.1 ||| BIT bit)
  writel b val addr r.2

/-! ## Initialisation -/

/-- The loop `for (int i = lo; ...; i++) body(i)` with `n` iterations left. -/
def forLoop {σ : Type} (body : Nat → σ → σ) : Nat → Nat → σ → σ
  | _, 0, s => s
  | i, n + 1, s => forLoop body (i + 1) n (body i s)

/-- The loop `for (int i = lo; i <= hi; i++) body(i)`. -/
def forRange {σ : Type} (lo hi : Nat) (body : Nat → σ → σ) (s : σ) : σ :=
  forLoop body lo (hi + 1 - lo) s

def plic_init_hart {σ : Type} (cfg : Config) (b : Bus σ) (s : σ) : σ :=
  let hart_id := get_hart_id cfg
  let s := forRange 1 (PLIC_NUM_INTERRUPTS cfg) (fun i s => plic_mask_irq cfg b true i s) s
  writel b 0 (wadd (PLIC_PPTR_BASE cfg) (plic_thres_offset cfg hart_id PLIC_SVC_CONTEXT)) s

/-- Body of the first loop of `plic_init_controller`. -/
def plic_init_controller_drain {σ : Type} (cfg : Config) (b : Bus σ) (i : Nat) (s : σ) : σ :=
  let p := plic_pending_interrupt cfg b i s
  if p.1 then
    let r := readl b (wadd (PLIC_PPTR_BASE cfg)
      (plic_claim_offset cfg (PLIC_HART_ID cfg) PLIC_SVC_CONTEXT)) p.2
    writel b i (wadd (PLIC_PPTR_BASE cfg)
      (plic_claim_offset cfg (PLIC_HART_ID cfg) PLIC_SVC_CONTEXT)) r.2
  else p.2

/-- Body of the second loop of `plic_init_controller`. -/
def plic_init_controller_prio {σ : Type} (cfg : Config) (b : Bus σ) (i : Nat) (s : σ) : σ :=
  writel b 2 (wadd (wadd (PLIC_PPTR_BASE cfg) PLIC_PRIO) (PLIC_PRIO_PER_ID * i)) s

def plic_init_controller {σ : Type} (cfg : Config) (b : Bus σ) (s : σ) : σ :=
  let s := forRange 1 (PLIC_NUM_INTERRUPTS cfg) (plic_init_controller_drain cfg b) s
  forRange 1 (cfg.PLIC_MAX_IRQ + 1) (plic_init_controller_prio cfg b) s

/-! ## The controller hardware -/

/-- Modelled from the spec: the state of the controller hardware, which is not
part of the driver. `reg` holds the register words of the memory-mapped window
(priority table, pending bitmap, enable bitmaps, thresholds) by address;
`claimed` gives, by claim register address, the source that context holds in
state Claimed, or 0 in state Idle. -/
structure PlicDev where
  reg : Mem
  claimed : Nat → Nat

/-- Offset of an address from the controller base. -/
def plicOff (cfg : Config) (addr : Nat) : Nat := wsub addr (PLIC_PPTR_BASE cfg)

/-- Modelled from the spec: the claim/complete registers of the register table,
one per context, at `0x200000 + 0x1000 * context + 0x4` from the base. -/
def isClaimReg (cfg : Config) (addr : Nat) : Bool :=
  decide (PLIC_THRES ≤ plicOff cfg addr)
    && decide (plicOff cfg addr % PLIC_THRES_PER_CONTEXT = PLIC_THRES_CLAIM)

/-- Modelled from the spec: the index of the context a claim register belongs to. -/
def claimContext (cfg : Config) (addr : Nat) : Nat :=
  (plicOff cfg addr - PLIC_THRES) / PLIC_THRES_PER_CONTEXT

/-- Modelled from the spec: the bit of source `s` in the global pending bitmap. -/
def hwPending (cfg : Config) (reg : Mem) (s : Nat) : Bool :=
  (reg (wadd (wadd (PLIC_PPTR_BASE cfg) PLIC_PENDING) (s / 32 * 4)) % 2 ^ 32).testBit (s % 32)

/-- Modelled from the spec: the bit of source `s` in the enable bitmap of
context `k`, at `0x2000 + 0x80 * k` from the base. -/
def hwEnabled (cfg : Config) (reg : Mem) (k s : Nat) : Bool :=
  (reg (wadd (wadd (PLIC_PPTR_BASE cfg) (PLIC_EN + PLIC_EN_PER_CONTEXT * k)) (s / 32 * 4))
    % 2 ^ 32).testBit (s % 32)

/-- Modelled from the spec: the priority register of source `s`. -/
def hwPriority (cfg : Config) (reg : Mem) (s : Nat) : Nat :=
  reg (wadd (wadd (PLIC_PPTR_BASE cfg) PLIC_PRIO) (PLIC_PRIO_PER_ID * s)) % 2 ^ 32

/-- Modelled from the spec: the source a claim selects for context `k`, "the
highest-priority pending-and-enabled source for that context", 0 if there is
none. Among sources of equal priority the lowest ID is taken (the spec does not
say). -/
def hwBest (cfg : Config) (reg : Mem) (k : Nat) : Nat :=
  forRange 1 (PLIC_NUM_INTERRUPTS cfg)
    (fun s best =>
      if hwPending cfg reg s && hwEnabled cfg reg k s
          && (best == 0 || decide (hwPriority cfg reg best < hwPriority cfg reg s))
      then s else best) 0

/-- Modelled from the spec: the pending bitmap with the bit of source `s` cleared. -/
def hwClearPending (cfg : Config) (reg : Mem) (s : Nat) : Mem := fun x =>
  if x = wadd (wadd (PLIC_PPTR_BASE cfg) PLIC_PENDING) (s / 32 * 4)
  then u32 (reg x % 2 ^ 32 &&& wnot (BIT (s % 32))) else reg x

/-- Modelled from the spec: loads and stores on the controller hardware. A load
from a claim register is the claim transition: it selects the highest-priority
pending-and-enabled source of the context, clears its pending bit, records it
as claimed and returns its ID (0, and no change, if there is none). A store to
a claim register is the complete transition: storing the ID the context holds
returns it to Idle; a store of any other ID is ignored. Every other register
is a plain word. -/
def plicBus (cfg : Config) : Bus PlicDev where
  load := fun addr d =>
    if isClaimReg cfg addr then
      let s := hwBest cfg d.reg (claimContext cfg addr)
      if s = 0 then (0, d)
      else (s, ⟨hwClearPending cfg d.reg s, fun a => if a = addr then s else d.claimed a⟩)
    else (d.reg addr % 2 ^ 32, d)
  store := fun val addr d =>
    if isClaimReg cfg addr then
      if d.claimed addr = val ∧ val ≠ 0
      then ⟨d.reg, fun a => if a = addr then 0 else d.claimed a⟩ else d
    else ⟨fun x => if x = addr then val else d.reg x, d.claimed⟩

/-- A boot state of the HiFive build: sources 3 and 7 are pending and enabled
for the supervisor context of the boot hart, source 3 has priority 1 and
source 7 priority 2; every other register word is zero and no context holds a
claim. -/
def bootDev : PlicDev where
  reg := fun x =>
    if x = 0xFFFFFFFFCC001000 then 0x88        -- pending word 0
    else if x = 0xFFFFFFFFCC002100 then 0x88   -- enable word 0 of hart 1, context 1
    else if x = 0xFFFFFFFFCC00000C then 1      -- priority of source 3
    else if x = 0xFFFFFFFFCC00001C then 2      -- priority of source 7
    else 0
  claimed := fun _ => 0

/-- A state of the controller with every register word zero and no claim
outstanding. -/
def idleDev : PlicDev := ⟨zeroMem, fun _ => 0⟩

/-! ## Bit arithmetic -/

theorem BIT_eq (b : Nat) (hb : b < 32) : BIT b = 2 ^ b := by
  unfold BIT
  apply Nat.mod_eq_of_lt
  exact Nat.pow_lt_pow_right (by norm_num) (by omega)

theorem testBit_clear (v b j : Nat) (hb : b < 32) :
    (u32 (v &&& wnot (BIT b))).testBit j
      = (decide (j < 32) && (v.testBit j && !decide (b = j))) := by
  have h2 : (2 : Nat) ^ b < 2 ^ 64 := Nat.pow_lt_pow_right (by norm_num) (by omega)
  unfold u32 wnot
  rw [BIT_eq b hb, Nat.mod_eq_of_lt h2, Nat.testBit_mod_two_pow, Nat.testBit_and,
    Nat.testBit_two_pow_sub_succ h2, Nat.testBit_two_pow]
  by_cases hj : j < 32
  · have : j < 64 := by omega
    simp [hj, this]
  · simp [hj]

theorem testBit_set (v b j : Nat) (hb : b < 32) :
    (u32 (v ||| BIT b)).testBit j
      = (decide (j < 32) && (v.testBit j || decide (b = j))) := by
  unfold u32
  rw [BIT_eq b hb, Nat.testBit_mod_two_pow, Nat.testBit_or, Nat.testBit_two_pow]

theorem u32_lt (x : Nat) : u32 x < 2 ^ 32 := Nat.mod_lt _ (by norm_num)

theorem u32_idem (x : Nat) : u32 (u32 x) = u32 x := by
  unfold u32; omega

theorem wadd_lt (a b : Nat) : wadd a b < 2 ^ 64 := Nat.mod_lt _ (by norm_num)

theorem wadd_mod (a b : Nat) : wadd a b % 2 ^ 64 = wadd a b := by
  unfold wadd; omega

/-! ## Loads and stores on plain memory -/

theorem readl_memBus (addr : Nat) (m : Mem) :
    readl memBus addr m = (m (addr % 2 ^ 64) % 2 ^ 32, m) := by
  simp [readl, memBus, u32]

theorem writel_memBus (val addr : Nat) (m : Mem) :
    writel memBus val addr m = fun x => if x = addr % 2 ^ 64 then val % 2 ^ 32 else m x := by
  simp [writel, memBus, u32]

/-- The enable word that `plic_mask_irq` reads and writes for `irq`. -/
theorem plic_mask_irq_memBus (cfg : Config) (d : Bool) (irq : Nat) (m : Mem) :
    plic_mask_irq cfg memBus d irq m = fun x =>
      if x = wadd (wadd (PLIC_PPTR_BASE cfg)
            (plic_enable_offset cfg (get_hart_id cfg) PLIC_SVC_CONTEXT)) (u32 (u32 irq / 32 * 4))
      then (if d then u32 (m x % 2 ^ 32 &&& wnot (BIT (u32 irq % 32)))
            else u32 (m x % 2 ^ 32 ||| BIT (u32 irq % 32)))
      else m x := by
  funext x
  simp only [plic_mask_irq, readl_memBus, writel_memBus, wadd_mod]
  by_cases hx : x = wadd (wadd (PLIC_PPTR_BASE cfg)
      (plic_enable_offset cfg (get_hart_id cfg) PLIC_SVC_CONTEXT)) (u32 (u32 irq / 32 * 4))
  · subst hx
    cases d <;> simp [u32]
  · simp [hx]

/-! ## Masking and unmasking one source -/

/-- The word offset of a source inside an enable bitmap, for sources that fit a
`uint32_t` computation. -/
theorem irq_word_offset (s : Nat) (hs : s ≤ 511) :
    u32 (u32 s / 32 * 4) = s / 32 * 4 ∧ u32 s % 32 = s % 32 ∧ s / 32 * 4 < 0x80 := by
  unfold u32
  omega

theorem PLIC_NUM_INTERRUPTS_le (cfg : Config) : PLIC_NUM_INTERRUPTS cfg ≤ 511 := by
  unfold PLIC_NUM_INTERRUPTS
  split <;> omega

/-- Claim C1: on hart `h`, for a source `s` in `[1, N]` and any prior memory,
`plic_mask_irq(true, s)` leaves bit `s % 32` of the enable word at
`PLIC base + plic_enable_offset(h, 1) + (s / 32) * 4` cleared,
`plic_mask_irq(false, s)` leaves it set, and repeating a call changes nothing. -/
theorem plic_mask_irq_enable_bit (cfg : Config) (h s : Nat) (m : Mem)
    (hh : get_hart_id cfg = h) (h1 : 1 ≤ s) (hN : s ≤ PLIC_NUM_INTERRUPTS cfg) :
    (readl memBus
        (wadd (wadd (PLIC_PPTR_BASE cfg) (plic_enable_offset cfg h PLIC_SVC_CONTEXT))
          (s / 32 * 4))
        (plic_mask_irq cfg memBus true s m)).1.testBit (s % 32) = false
    ∧ (readl memBus
        (wadd (wadd (PLIC_PPTR_BASE cfg) (plic_enable_offset cfg h PLIC_SVC_CONTEXT))
          (s / 32 * 4))
        (plic_mask_irq cfg memBus false s m)).1.testBit (s % 32) = true
    ∧ ∀ d : Bool, plic_mask_irq cfg memBus d s (plic_mask_irq cfg memBus d s m)
        = plic_mask_irq cfg memBus d s m := by
  subst hh
  have hs : s ≤ 511 := le_trans hN (PLIC_NUM_INTERRUPTS_le cfg)
  obtain ⟨ho, hb, -⟩ := irq_word_offset s hs
  have hlt : s % 32 < 32 := Nat.mod_lt _ (by norm_num)
  refine ⟨?_, ?_, ?_⟩
  · rw [readl_memBus, plic_mask_irq_memBus, ho, hb, wadd_mod]
    simp only [if_true]
    rw [Nat.mod_eq_of_lt (u32_lt _), testBit_clear _ _ _ hlt]
    simp
  · rw [readl_memBus, plic_mask_irq_memBus, ho, hb, wadd_mod]
    simp only [if_true, Bool.false_eq_true, if_false]
    rw [Nat.mod_eq_of_lt (u32_lt _), testBit_set _ _ _ hlt]
    simp [hlt]
  · intro d
    rw [plic_mask_irq_memBus cfg d s (plic_mask_irq cfg memBus d s m),
      plic_mask_irq_memBus cfg d s m, ho, hb]
    funext x
    by_cases hx : x = wadd (wadd (PLIC_PPTR_BASE cfg)
        (plic_enable_offset cfg (get_hart_id cfg) PLIC_SVC_CONTEXT)) (s / 32 * 4)
    · simp only [hx, if_true]
      cases d
      · simp only [Bool.false_eq_true, if_false]
        apply Nat.eq_of_testBit_eq
        intro j
        rw [Nat.mod_eq_of_lt (u32_lt _), testBit_set _ _ _ hlt, testBit_set _ _ _ hlt]
        cases decide (j < 32) <;> cases (m (wadd (wadd (PLIC_PPTR_BASE cfg)
          (plic_enable_offset cfg (get_hart_id cfg) PLIC_SVC_CONTEXT)) (s / 32 * 4))
            % 2 ^ 32).testBit j <;> cases decide (s % 32 = j) <;> rfl
      · simp only [if_true]
        apply Nat.eq_of_testBit_eq
        intro j
        rw [Nat.mod_eq_of_lt (u32_lt _), testBit_clear _ _ _ hlt, testBit_clear _ _ _ hlt]
        cases decide (j < 32) <;> cases (m (wadd (wadd (PLIC_PPTR_BASE cfg)
          (plic_enable_offset cfg (get_hart_id cfg) PLIC_SVC_CONTEXT)) (s / 32 * 4))
            % 2 ^ 32).testBit j <;> cases decide (s % 32 = j) <;> rfl
    · simp only [hx, if_false]

theorem plic_mask_irq_enable_bit_witness :
    get_hart_id hifiveCfg = 1 ∧ 1 ≤ 35 ∧ 35 ≤ PLIC_NUM_INTERRUPTS hifiveCfg
    ∧ (readl memBus
        (wadd (wadd (PLIC_PPTR_BASE hifiveCfg) (plic_enable_offset hifiveCfg 1 PLIC_SVC_CONTEXT))
          (35 / 32 * 4))
        (plic_mask_irq hifiveCfg memBus true 35 fullMem)).1.testBit (35 % 32) = false
    ∧ (readl memBus
        (wadd (wadd (PLIC_PPTR_BASE hifiveCfg) (plic_enable_offset hifiveCfg 1 PLIC_SVC_CONTEXT))
          (35 / 32 * 4))
        (plic_mask_irq hifiveCfg memBus false 35 fullMem)).1.testBit (35 % 32) = true
    ∧ ∀ d : Bool, plic_mask_irq hifiveCfg memBus d 35 (plic_mask_irq hifiveCfg memBus d 35 fullMem)
        = plic_mask_irq hifiveCfg memBus d 35 fullMem :=
  ⟨by decide, by decide, by decide,
    plic_mask_irq_enable_bit hifiveCfg 1 35 fullMem (by decide) (by decide) (by decide)⟩

/-! ## Register layout -/

/-- Claim C2: on either platform variant, for contexts in `{0, 1}` and hart IDs
below `2 ^ 32`, two distinct (hart, context) pairs have different enable
offsets, different threshold offsets and different claim offsets, and no claim
offset of one of the pairs equals a threshold offset of one of the pairs. -/
theorem plic_offsets_disjoint (cfg : Config) (h1 c1 h2 c2 : Nat)
    (hc1 : c1 = 0 ∨ c1 = 1) (hc2 : c2 = 0 ∨ c2 = 1)
    (hh1 : h1 < 2 ^ 32) (hh2 : h2 < 2 ^ 32) (hne : (h1, c1) ≠ (h2, c2)) :
    plic_enable_offset cfg h1 c1 ≠ plic_enable_offset cfg h2 c2
    ∧ plic_thres_offset cfg h1 c1 ≠ plic_thres_offset cfg h2 c2
    ∧ plic_claim_offset cfg h1 c1 ≠ plic_claim_offset cfg h2 c2
    ∧ plic_claim_offset cfg h1 c1 ≠ plic_thres_offset cfg h2 c2
    ∧ plic_claim_offset cfg h2 c2 ≠ plic_thres_offset cfg h1 c1
    ∧ plic_claim_offset cfg h1 c1 ≠ plic_thres_offset cfg h1 c1
    ∧ plic_claim_offset cfg h2 c2 ≠ plic_thres_offset cfg h2 c2 := by
  have hd : h1 ≠ h2 ∨ c1 ≠ c2 := by
    by_contra hcon
    push_neg at hcon
    exact hne (by rw [hcon.1, hcon.2])
  simp only [plic_enable_offset, plic_thres_offset, plic_claim_offset, PLAT_PLIC_EN_ADJUST,
    PLAT_PLIC_THRES_ADJUST, wadd, wsub, wmul, PLIC_EN, PLIC_EN_PER_HART, PLIC_EN_PER_CONTEXT,
    PLIC_THRES, PLIC_THRES_PER_HART, PLIC_THRES_PER_CONTEXT, PLIC_THRES_CLAIM]
  cases cfg.CONFIG_PLAT_HIFIVE <;> simp only [Bool.false_eq_true, if_false, if_true] <;>
    refine ⟨?_, ?_, ?_, ?_, ?_, ?_, ?_⟩ <;> omega

theorem plic_offsets_disjoint_witness :
    ((1 : Nat) = 0 ∨ (1 : Nat) = 1) ∧ ((0 : Nat) = 0 ∨ (0 : Nat) = 1)
    ∧ 1 < 2 ^ 32 ∧ 2 < 2 ^ 32 ∧ ((1, 1) : Nat × Nat) ≠ (2, 0)
    ∧ plic_enable_offset hifiveCfg 1 1 ≠ plic_enable_offset hifiveCfg 2 0
    ∧ plic_thres_offset hifiveCfg 1 1 ≠ plic_thres_offset hifiveCfg 2 0
    ∧ plic_claim_offset hifiveCfg 1 1 ≠ plic_claim_offset hifiveCfg 2 0
    ∧ plic_claim_offset hifiveCfg 1 1 ≠ plic_thres_offset hifiveCfg 2 0
    ∧ plic_claim_offset hifiveCfg 2 0 ≠ plic_thres_offset hifiveCfg 1 1
    ∧ plic_claim_offset hifiveCfg 1 1 ≠ plic_thres_offset hifiveCfg 1 1
    ∧ plic_claim_offset hifiveCfg 2 0 ≠ plic_thres_offset hifiveCfg 2 0 :=
  ⟨by decide, by decide, by decide, by decide, by decide,
    plic_offsets_disjoint hifiveCfg 1 1 2 0 (by decide) (by decide) (by decide) (by decide)
      (by decide)⟩

/-- Claim C6: when the `word_t` sums do not wrap, the general variant has
enable offset `0x2000 + h * 0x100 + c * 0x80`, threshold offset
`0x200000 + h * 0x2000 + c * 0x1000` and `N = 511`; the HiFive variant has the
general-variant offsets minus one context stride (`0x80`, `0x1000`) and
`N = 53`. -/
theorem plic_offsets_by_variant (cfg : Config) (h c : Nat)
    (hen : 0x2000 + h * 0x100 + c * 0x80 < 2 ^ 64)
    (hth : 0x200000 + h * 0x2000 + c * 0x1000 < 2 ^ 64) :
    (cfg.CONFIG_PLAT_HIFIVE = false →
      plic_enable_offset cfg h c = 0x2000 + h * 0x100 + c * 0x80
      ∧ plic_thres_offset cfg h c = 0x200000 + h * 0x2000 + c * 0x1000
      ∧ PLIC_NUM_INTERRUPTS cfg = 511)
    ∧ (cfg.CONFIG_PLAT_HIFIVE = true →
      plic_enable_offset cfg h c = 0x2000 + h * 0x100 + c * 0x80 - 0x80
      ∧ plic_thres_offset cfg h c = 0x200000 + h * 0x2000 + c * 0x1000 - 0x1000
      ∧ PLIC_NUM_INTERRUPTS cfg = 53
      ∧ ∀ g : Config, g.CONFIG_PLAT_HIFIVE = false →
          plic_enable_offset cfg h c = plic_enable_offset g h c - PLIC_EN_PER_CONTEXT
          ∧ plic_thres_offset cfg h c = plic_thres_offset g h c - PLIC_THRES_PER_CONTEXT) := by
  constructor
  · intro hv
    simp only [plic_enable_offset, plic_thres_offset, PLAT_PLIC_EN_ADJUST,
      PLAT_PLIC_THRES_ADJUST, PLIC_NUM_INTERRUPTS, hv, wadd, wmul, PLIC_EN, PLIC_EN_PER_HART,
      PLIC_EN_PER_CONTEXT, PLIC_THRES, PLIC_THRES_PER_HART, PLIC_THRES_PER_CONTEXT,
      Bool.false_eq_true, if_false]
    refine ⟨?_, ?_, trivial⟩ <;> omega
  · intro hv
    refine ⟨?_, ?_, ?_, ?_⟩
    · simp only [plic_enable_offset, PLAT_PLIC_EN_ADJUST, hv, wadd, wsub, wmul, PLIC_EN,
        PLIC_EN_PER_HART, PLIC_EN_PER_CONTEXT, if_true]
      omega
    · simp only [plic_thres_offset, PLAT_PLIC_THRES_ADJUST, hv, wadd, wsub, wmul, PLIC_THRES,
        PLIC_THRES_PER_HART, PLIC_THRES_PER_CONTEXT, if_true]
      omega
    · simp [PLIC_NUM_INTERRUPTS, hv]
    · intro g hg
      simp only [plic_enable_offset, plic_thres_offset, PLAT_PLIC_EN_ADJUST,
        PLAT_PLIC_THRES_ADJUST, hv, hg, wadd, wsub, wmul, PLIC_EN, PLIC_EN_PER_HART,
        PLIC_EN_PER_CONTEXT, PLIC_THRES, PLIC_THRES_PER_HART, PLIC_THRES_PER_CONTEXT,
        Bool.false_eq_true, if_false, if_true]
      constructor <;> omega

theorem plic_offsets_by_variant_witness :
    0x2000 + 4 * 0x100 + 1 * 0x80 < 2 ^ 64
    ∧ 0x200000 + 4 * 0x2000 + 1 * 0x1000 < 2 ^ 64
    ∧ (plic_enable_offset generalCfg 4 1 = 0x2000 + 4 * 0x100 + 1 * 0x80
      ∧ plic_thres_offset generalCfg 4 1 = 0x200000 + 4 * 0x2000 + 1 * 0x1000
      ∧ PLIC_NUM_INTERRUPTS generalCfg = 511)
    ∧ plic_enable_offset hifiveCfg 4 1 = 0x2000 + 4 * 0x100 + 1 * 0x80 - 0x80
    ∧ plic_thres_offset hifiveCfg 4 1 = 0x200000 + 4 * 0x2000 + 1 * 0x1000 - 0x1000
    ∧ PLIC_NUM_INTERRUPTS hifiveCfg = 53 :=
  ⟨by decide, by decide,
    (plic_offsets_by_variant generalCfg 4 1 (by decide) (by decide)).1 rfl,
    ((plic_offsets_by_variant hifiveCfg 4 1 (by decide) (by decide)).2 rfl).1,
    ((plic_offsets_by_variant hifiveCfg 4 1 (by decide) (by decide)).2 rfl).2.1,
    ((plic_offsets_by_variant hifiveCfg 4 1 (by decide) (by decide)).2 rfl).2.2.1⟩

/-- A threshold offset is a `word_t` multiple of `0x1000`. -/
theorem plic_thres_offset_aligned (cfg : Config) (h c : Nat) :
    plic_thres_offset cfg h c % 0x1000 = 0 ∧ plic_thres_offset cfg h c < 2 ^ 64 := by
  simp only [plic_thres_offset, PLAT_PLIC_THRES_ADJUST, wadd, wsub, wmul, PLIC_THRES,
    PLIC_THRES_PER_HART, PLIC_THRES_PER_CONTEXT]
  cases cfg.CONFIG_PLAT_HIFIVE <;> simp only [Bool.false_eq_true, if_false, if_true] <;> omega

/-! ## Claim and complete -/

/-- Claim C7: the claim offset of a (hart, context) pair is its threshold offset
plus `0x4`; on hart `h`, `plic_complete_claim(irq)` performs exactly one bus
access, a write of `irq` to `PLIC base + plic_claim_offset(h, 1)`, and
`plic_get_claim` performs exactly one access, a read of that same address. -/
theorem plic_claim_register (cfg : Config) (h c irq : Nat) {σ : Type} (b : Bus σ) (st : σ)
    (log : List Access) (hh : get_hart_id cfg = h) (hirq : irq < 2 ^ 32) :
    plic_claim_offset cfg h c = plic_thres_offset cfg h c + 0x4
    ∧ (plic_complete_claim cfg b.traced irq (st, log)).2
        = log ++ [Access.write irq
            (wadd (PLIC_PPTR_BASE cfg) (plic_claim_offset cfg h PLIC_SVC_CONTEXT))]
    ∧ ∃ v, (plic_get_claim cfg b.traced (st, log)).2.2
        = log ++ [Access.read
            (wadd (PLIC_PPTR_BASE cfg) (plic_claim_offset cfg h PLIC_SVC_CONTEXT)) v] := by
  subst hh
  refine ⟨?_, ?_, ?_⟩
  · have ha := plic_thres_offset_aligned cfg (get_hart_id cfg) c
    simp only [plic_claim_offset, wadd, PLIC_THRES_CLAIM]
    omega
  · simp only [plic_complete_claim, writel, Bus.traced, wadd_mod, u32]
    rw [Nat.mod_mod, Nat.mod_eq_of_lt hirq]
  · refine ⟨(b.load (wadd (PLIC_PPTR_BASE cfg)
      (plic_claim_offset cfg (get_hart_id cfg) PLIC_SVC_CONTEXT)) st).1, ?_⟩
    simp only [plic_get_claim, readl, Bus.traced, wadd_mod]

theorem plic_claim_register_witness :
    get_hart_id hifiveCfg = 1 ∧ 7 < 2 ^ 32
    ∧ plic_claim_offset hifiveCfg 1 1 = plic_thres_offset hifiveCfg 1 1 + 0x4
    ∧ (plic_complete_claim hifiveCfg memBus.traced 7 (zeroMem, [])).2
        = [] ++ [Access.write 7
            (wadd (PLIC_PPTR_BASE hifiveCfg) (plic_claim_offset hifiveCfg 1 PLIC_SVC_CONTEXT))]
    ∧ ∃ v, (plic_get_claim hifiveCfg memBus.traced (zeroMem, [])).2.2
        = [] ++ [Access.read
            (wadd (PLIC_PPTR_BASE hifiveCfg) (plic_claim_offset hifiveCfg 1 PLIC_SVC_CONTEXT)) v] :=
  ⟨by decide, by decide,
    plic_claim_register hifiveCfg 1 1 7 memBus zeroMem [] (by decide) (by decide)⟩

/-! ## Pending check -/

theorem and_BIT_ne_zero (v b : Nat) (hb : b < 32) :
    (decide (v &&& BIT b ≠ 0)) = v.testBit b := by
  rw [BIT_eq b hb, Nat.and_two_pow]
  have hp : 0 < 2 ^ b := Nat.two_pow_pos b
  cases hv : v.testBit b
  · simp
  · simp only [Bool.toNat_true, one_mul, ne_eq, decide_not, Bool.not_eq_true',
      decide_eq_false_iff_not]
    omega

/-- Claim C8: `plic_pending_interrupt(s)` returns true exactly when bit `s % 32`
of the word at `PLIC base + 0x1000 + (s / 32) * 4` is set; it leaves memory as
it was; over any bus its only access is one read of that address; and the
address is fixed by `PLIC_PPTR` and `s`, not by the hart. -/
theorem plic_pending_interrupt_reads_bit (cfg : Config) (s : Nat) (m : Mem) {σ : Type}
    (b : Bus σ) (st : σ) (log : List Access) (hs : s < 2 ^ 64) :
    ((plic_pending_interrupt cfg memBus s m).1 = true ↔
      (readl memBus (wadd (wadd (PLIC_PPTR_BASE cfg) 0x1000) (s / 32 * 4)) m).1.testBit (s % 32)
        = true)
    ∧ (plic_pending_interrupt cfg memBus s m).2 = m
    ∧ (∃ v, (plic_pending_interrupt cfg b.traced s (st, log)).2.2
        = log ++ [Access.read
            (wadd (wadd (wadd cfg.PLIC_PPTR 0x0C000000) 0x1000) (s / 32 * 4)) v])
    ∧ ∀ cfg2 : Config, cfg2.PLIC_PPTR = cfg.PLIC_PPTR →
        plic_pending_interrupt cfg2 memBus s m = plic_pending_interrupt cfg memBus s m := by
  have haddr : wadd (wadd (PLIC_PPTR_BASE cfg) PLIC_PENDING) (wmul (s % 2 ^ 64 / 32) 4)
      = wadd (wadd (PLIC_PPTR_BASE cfg) 0x1000) (s / 32 * 4) := by
    simp only [wadd, wmul, PLIC_PENDING]
    omega
  have hbit : s % 2 ^ 64 % 32 = s % 32 := by omega
  have hlt : s % 32 < 32 := Nat.mod_lt _ (by norm_num)
  refine ⟨?_, ?_, ?_, ?_⟩
  · have hd := and_BIT_ne_zero
      (readl memBus (wadd (wadd (PLIC_PPTR_BASE cfg) 0x1000) (s / 32 * 4)) m).1 (s % 32) hlt
    simp only [plic_pending_interrupt, haddr, hbit]
    rw [← hd]
    by_cases hz : (readl memBus (wadd (wadd (PLIC_PPTR_BASE cfg) 0x1000) (s / 32 * 4)) m).1
        &&& BIT (s % 32) ≠ 0
    · simp [hz]
    · simp [hz]
  · simp only [plic_pending_interrupt, readl_memBus]
    split <;> rfl
  · refine ⟨(b.load (wadd (wadd (PLIC_PPTR_BASE cfg) 0x1000) (s / 32 * 4)) st).1, ?_⟩
    simp only [plic_pending_interrupt, haddr, hbit]
    simp only [readl, Bus.traced, wadd_mod, PLIC_PPTR_BASE]
    split <;> rfl
  · intro cfg2 h2
    simp only [plic_pending_interrupt, PLIC_PPTR_BASE, h2]

theorem plic_pending_interrupt_reads_bit_witness :
    7 < 2 ^ 64
    ∧ ((plic_pending_interrupt hifiveCfg memBus 7 fullMem).1 = true ↔
        (readl memBus (wadd (wadd (PLIC_PPTR_BASE hifiveCfg) 0x1000) (7 / 32 * 4))
          fullMem).1.testBit (7 % 32) = true)
    ∧ (plic_pending_interrupt hifiveCfg memBus 7 fullMem).2 = fullMem :=
  ⟨by decide,
    (plic_pending_interrupt_reads_bit hifiveCfg 7 fullMem memBus zeroMem [] (by decide)).1,
    (plic_pending_interrupt_reads_bit hifiveCfg 7 fullMem memBus zeroMem [] (by decide)).2.1⟩

/-! ## Ownership of the enable words -/

/-- The two accesses of `plic_mask_irq`: a read and a write of one enable word. -/
theorem plic_mask_irq_traced (cfg : Config) (d : Bool) (irq : Nat) {σ : Type} (b : Bus σ)
    (st : σ) (log : List Access) :
    ∃ v val, (plic_mask_irq cfg b.traced d irq (st, log)).2
      = log ++ [Access.read (wadd (wadd (PLIC_PPTR_BASE cfg)
            (plic_enable_offset cfg (get_hart_id cfg) PLIC_SVC_CONTEXT)) (u32 (u32 irq / 32 * 4))) v,
          Access.write val (wadd (wadd (PLIC_PPTR_BASE cfg)
            (plic_enable_offset cfg (get_hart_id cfg) PLIC_SVC_CONTEXT))
              (u32 (u32 irq / 32 * 4)))] := by
  refine ⟨(b.load (wadd (wadd (PLIC_PPTR_BASE cfg)
      (plic_enable_offset cfg (get_hart_id cfg) PLIC_SVC_CONTEXT)) (u32 (u32 irq / 32 * 4))) st).1,
    u32 (if d then u32 (u32 (b.load (wadd (wadd (PLIC_PPTR_BASE cfg)
      (plic_enable_offset cfg (get_hart_id cfg) PLIC_SVC_CONTEXT)) (u32 (u32 irq / 32 * 4))) st).1
        &&& wnot (BIT (u32 irq % 32)))
      else u32 (u32 (b.load (wadd (wadd (PLIC_PPTR_BASE cfg)
      (plic_enable_offset cfg (get_hart_id cfg) PLIC_SVC_CONTEXT)) (u32 (u32 irq / 32 * 4))) st).1
        ||| BIT (u32 irq % 32))), ?_⟩
  simp only [plic_mask_irq, readl, writel, Bus.traced, wadd_mod, List.append_assoc,
    List.singleton_append]

/-- Claim C9: for two distinct harts below `2 ^ 32` of one platform and sources
`s1`, `s2` in `[1, N]`, no address that `plic_mask_irq` accesses on the first
hart is accessed on the second; and when the hart's stride does not wrap the
address space, every address accessed on hart `h1` lies in
`[base + plic_enable_offset(h1, 1), base + plic_enable_offset(h1, 1) + 0x80)`. -/
theorem plic_mask_irq_own_stride (cfgA cfgB : Config) (h1 h2 s1 s2 : Nat) (d1 d2 : Bool)
    {σ : Type} (b : Bus σ) (st1 st2 : σ)
    (hvar : cfgB.CONFIG_PLAT_HIFIVE = cfgA.CONFIG_PLAT_HIFIVE)
    (hbase : cfgB.PLIC_PPTR = cfgA.PLIC_PPTR)
    (hA : get_hart_id cfgA = h1) (hB : get_hart_id cfgB = h2)
    (hne : h1 ≠ h2) (hh1 : h1 < 2 ^ 32) (hh2 : h2 < 2 ^ 32)
    (hs1 : 1 ≤ s1 ∧ s1 ≤ PLIC_NUM_INTERRUPTS cfgA)
    (hs2 : 1 ≤ s2 ∧ s2 ≤ PLIC_NUM_INTERRUPTS cfgB)
    (hwin : PLIC_PPTR_BASE cfgA + plic_enable_offset cfgA h1 PLIC_SVC_CONTEXT + 0x80 ≤ 2 ^ 64) :
    (∀ a1 ∈ (plic_mask_irq cfgA b.traced d1 s1 (st1, [])).2,
      ∀ a2 ∈ (plic_mask_irq cfgB b.traced d2 s2 (st2, [])).2, a1.addr ≠ a2.addr)
    ∧ ∀ a1 ∈ (plic_mask_irq cfgA b.traced d1 s1 (st1, [])).2,
        PLIC_PPTR_BASE cfgA + plic_enable_offset cfgA h1 PLIC_SVC_CONTEXT ≤ a1.addr
        ∧ a1.addr < PLIC_PPTR_BASE cfgA + plic_enable_offset cfgA h1 PLIC_SVC_CONTEXT + 0x80 := by
  subst hA hB
  obtain ⟨v1, w1, e1⟩ := plic_mask_irq_traced cfgA d1 s1 b st1 []
  obtain ⟨v2, w2, e2⟩ := plic_mask_irq_traced cfgB d2 s2 b st2 []
  have hl1 : s1 ≤ 511 := le_trans hs1.2 (PLIC_NUM_INTERRUPTS_le cfgA)
  have hl2 : s2 ≤ 511 := le_trans hs2.2 (PLIC_NUM_INTERRUPTS_le cfgB)
  obtain ⟨ho1, -, hk1⟩ := irq_word_offset s1 hl1
  obtain ⟨ho2, -, hk2⟩ := irq_word_offset s2 hl2
  rw [e1, e2, ho1, ho2]
  have hbB : PLIC_PPTR_BASE cfgB = PLIC_PPTR_BASE cfgA := by simp only [PLIC_PPTR_BASE, hbase]
  have hbl : PLIC_PPTR_BASE cfgA < 2 ^ 64 := wadd_lt _ _
  rw [hbB]
  have hdiff : wadd (wadd (PLIC_PPTR_BASE cfgA)
        (plic_enable_offset cfgA (get_hart_id cfgA) PLIC_SVC_CONTEXT)) (s1 / 32 * 4)
      ≠ wadd (wadd (PLIC_PPTR_BASE cfgA)
        (plic_enable_offset cfgB (get_hart_id cfgB) PLIC_SVC_CONTEXT)) (s2 / 32 * 4) := by
    generalize PLIC_PPTR_BASE cfgA = base at hbl
    simp only [plic_enable_offset, PLAT_PLIC_EN_ADJUST, hvar, wadd, wsub, wmul, PLIC_EN,
      PLIC_EN_PER_HART, PLIC_EN_PER_CONTEXT, PLIC_SVC_CONTEXT]
    cases cfgA.CONFIG_PLAT_HIFIVE <;> simp only [Bool.false_eq_true, if_false, if_true] <;> omega
  have hin : PLIC_PPTR_BASE cfgA + plic_enable_offset cfgA (get_hart_id cfgA) PLIC_SVC_CONTEXT
        ≤ wadd (wadd (PLIC_PPTR_BASE cfgA)
          (plic_enable_offset cfgA (get_hart_id cfgA) PLIC_SVC_CONTEXT)) (s1 / 32 * 4)
      ∧ wadd (wadd (PLIC_PPTR_BASE cfgA)
          (plic_enable_offset cfgA (get_hart_id cfgA) PLIC_SVC_CONTEXT)) (s1 / 32 * 4)
        < PLIC_PPTR_BASE cfgA + plic_enable_offset cfgA (get_hart_id cfgA) PLIC_SVC_CONTEXT
          + 0x80 := by
    simp only [wadd]
    omega
  constructor
  · intro a1 ha1 a2 ha2
    simp only [List.nil_append, List.mem_cons, List.mem_singleton, List.not_mem_nil,
      or_false] at ha1 ha2
    rcases ha1 with rfl | rfl <;> rcases ha2 with rfl | rfl <;> exact hdiff
  · intro a1 ha1
    simp only [List.nil_append, List.mem_cons, List.mem_singleton, List.not_mem_nil,
      or_false] at ha1
    rcases ha1 with rfl | rfl <;> exact hin

theorem plic_mask_irq_own_stride_witness :
    (smpCfg 2).CONFIG_PLAT_HIFIVE = (smpCfg 1).CONFIG_PLAT_HIFIVE
    ∧ (smpCfg 2).PLIC_PPTR = (smpCfg 1).PLIC_PPTR
    ∧ get_hart_id (smpCfg 1) = 1 ∧ get_hart_id (smpCfg 2) = 2
    ∧ (1 : Nat) ≠ 2 ∧ 1 < 2 ^ 32 ∧ 2 < 2 ^ 32
    ∧ (1 ≤ 53 ∧ 53 ≤ PLIC_NUM_INTERRUPTS (smpCfg 1))
    ∧ (1 ≤ 3 ∧ 3 ≤ PLIC_NUM_INTERRUPTS (smpCfg 2))
    ∧ PLIC_PPTR_BASE (smpCfg 1) + plic_enable_offset (smpCfg 1) 1 PLIC_SVC_CONTEXT + 0x80
        ≤ 2 ^ 64
    ∧ ((∀ a1 ∈ (plic_mask_irq (smpCfg 1) memBus.traced true 53 (fullMem, [])).2,
        ∀ a2 ∈ (plic_mask_irq (smpCfg 2) memBus.traced false 3 (zeroMem, [])).2,
          a1.addr ≠ a2.addr)
      ∧ ∀ a1 ∈ (plic_mask_irq (smpCfg 1) memBus.traced true 53 (fullMem, [])).2,
          PLIC_PPTR_BASE (smpCfg 1) + plic_enable_offset (smpCfg 1) 1 PLIC_SVC_CONTEXT ≤ a1.addr
          ∧ a1.addr < PLIC_PPTR_BASE (smpCfg 1)
              + plic_enable_offset (smpCfg 1) 1 PLIC_SVC_CONTEXT + 0x80) :=
  ⟨rfl, rfl, by decide, by decide, by decide, by decide, by decide, by decide, by decide,
    by decide,
    plic_mask_irq_own_stride (smpCfg 1) (smpCfg 2) 1 2 53 3 true false memBus fullMem zeroMem
      rfl rfl (by decide) (by decide) (by decide) (by decide) (by decide) (by decide)
      (by decide) (by decide)⟩

/-! ## Per-hart initialisation -/

/-- Disabling a source never sets a bit: a cleared bit of any word stays cleared. -/
theorem plic_mask_irq_true_keeps_clear (cfg : Config) (i : Nat) (m : Mem) (a j : Nat)
    (hc : (m a % 2 ^ 32).testBit j = false) :
    (plic_mask_irq cfg memBus true i m a % 2 ^ 32).testBit j = false := by
  rw [plic_mask_irq_memBus]
  have hlt : u32 i % 32 < 32 := Nat.mod_lt _ (by norm_num)
  by_cases hx : a = wadd (wadd (PLIC_PPTR_BASE cfg)
      (plic_enable_offset cfg (get_hart_id cfg) PLIC_SVC_CONTEXT)) (u32 (u32 i / 32 * 4))
  · simp only [← hx, if_true]
    rw [Nat.mod_eq_of_lt (u32_lt _), testBit_clear _ _ _ hlt, hc]
    simp
  · simp only [hx, if_false]
    exact hc

/-- Disabling source `i` clears its bit. -/
theorem plic_mask_irq_true_clears (cfg : Config) (i : Nat) (m : Mem) (hi : i ≤ 511) :
    (plic_mask_irq cfg memBus true i m
      (wadd (wadd (PLIC_PPTR_BASE cfg)
        (plic_enable_offset cfg (get_hart_id cfg) PLIC_SVC_CONTEXT)) (i / 32 * 4))
      % 2 ^ 32).testBit (i % 32) = false := by
  obtain ⟨ho, hb, -⟩ := irq_word_offset i hi
  have hlt : i % 32 < 32 := Nat.mod_lt _ (by norm_num)
  rw [plic_mask_irq_memBus, ho, hb]
  simp only [if_true]
  rw [Nat.mod_eq_of_lt (u32_lt _), testBit_clear _ _ _ hlt]
  simp

theorem mask_loop_keeps_clear (cfg : Config) (a j : Nat) (n : Nat) :
    ∀ (lo : Nat) (m : Mem), (m a % 2 ^ 32).testBit j = false →
      (forLoop (fun i s => plic_mask_irq cfg memBus true i s) lo n m a % 2 ^ 32).testBit j
        = false := by
  induction n with
  | zero => intro lo m hc; exact hc
  | succ n ih =>
    intro lo m hc
    exact ih (lo + 1) _ (plic_mask_irq_true_keeps_clear cfg lo m a j hc)

theorem mask_loop_clears (cfg : Config) (s : Nat) (hs : s ≤ 511) (n : Nat) :
    ∀ (lo : Nat) (m : Mem), lo ≤ s → s < lo + n →
      (forLoop (fun i s => plic_mask_irq cfg memBus true i s) lo n m
        (wadd (wadd (PLIC_PPTR_BASE cfg)
          (plic_enable_offset cfg (get_hart_id cfg) PLIC_SVC_CONTEXT)) (s / 32 * 4))
        % 2 ^ 32).testBit (s % 32) = false := by
  induction n with
  | zero => intro lo m h1 h2; omega
  | succ n ih =>
    intro lo m h1 h2
    by_cases he : lo = s
    · subst he
      exact mask_loop_keeps_clear cfg _ _ n (lo + 1) _ (plic_mask_irq_true_clears cfg lo m hs)
    · exact ih (lo + 1) _ (by omega) (by omega)

/-- Claim C3: after `plic_init_hart` on hart `h`, from any prior memory, the
enable bit of every source `s` in `[1, N]` in hart `h`'s supervisor context is
0 and the threshold register at `PLIC base + plic_thres_offset(h, 1)` reads 0. -/
theorem plic_init_hart_disables_all (cfg : Config) (h s : Nat) (m : Mem)
    (hh : get_hart_id cfg = h) (h1 : 1 ≤ s) (hN : s ≤ PLIC_NUM_INTERRUPTS cfg) :
    (readl memBus
        (wadd (wadd (PLIC_PPTR_BASE cfg) (plic_enable_offset cfg h PLIC_SVC_CONTEXT))
          (s / 32 * 4))
        (plic_init_hart cfg memBus m)).1.testBit (s % 32) = false
    ∧ (readl memBus (wadd (PLIC_PPTR_BASE cfg) (plic_thres_offset cfg h PLIC_SVC_CONTEXT))
        (plic_init_hart cfg memBus m)).1 = 0 := by
  subst hh
  have hs : s ≤ 511 := le_trans hN (PLIC_NUM_INTERRUPTS_le cfg)
  have hloop := mask_loop_clears cfg s hs (PLIC_NUM_INTERRUPTS cfg + 1 - 1) 1 m h1 (by omega)
  simp only [plic_init_hart, forRange, readl_memBus, writel_memBus, wadd_mod]
  constructor
  · by_cases hx : wadd (wadd (PLIC_PPTR_BASE cfg)
        (plic_enable_offset cfg (get_hart_id cfg) PLIC_SVC_CONTEXT)) (s / 32 * 4)
        = wadd (PLIC_PPTR_BASE cfg) (plic_thres_offset cfg (get_hart_id cfg) PLIC_SVC_CONTEXT)
    · simp [hx]
    · simp only [hx, if_false]
      exact hloop
  · simp

theorem plic_init_hart_disables_all_witness :
    get_hart_id hifiveCfg = 1 ∧ 1 ≤ 53 ∧ 53 ≤ PLIC_NUM_INTERRUPTS hifiveCfg
    ∧ (readl memBus
        (wadd (wadd (PLIC_PPTR_BASE hifiveCfg) (plic_enable_offset hifiveCfg 1 PLIC_SVC_CONTEXT))
          (53 / 32 * 4))
        (plic_init_hart hifiveCfg memBus fullMem)).1.testBit (53 % 32) = false
    ∧ (readl memBus
        (wadd (PLIC_PPTR_BASE hifiveCfg) (plic_thres_offset hifiveCfg 1 PLIC_SVC_CONTEXT))
        (plic_init_hart hifiveCfg memBus fullMem)).1 = 0 :=
  ⟨by decide, by decide, by decide,
    plic_init_hart_disables_all hifiveCfg 1 53 fullMem (by decide) (by decide) (by decide)⟩

/-! ## Controller initialisation: priorities -/

theorem prio_write_memBus (cfg : Config) (i : Nat) (m : Mem) :
    plic_init_controller_prio cfg memBus i m = fun x =>
      if x = wadd (wadd (PLIC_PPTR_BASE cfg) PLIC_PRIO) (PLIC_PRIO_PER_ID * i) then 2
      else m x := by
  simp only [plic_init_controller_prio, writel_memBus, wadd_mod]
  rfl

theorem prio_loop_keeps_two (cfg : Config) (a : Nat) (n : Nat) :
    ∀ (lo : Nat) (m : Mem), m a % 2 ^ 32 = 2 →
      forLoop (plic_init_controller_prio cfg memBus) lo n m a % 2 ^ 32 = 2 := by
  induction n with
  | zero => intro lo m hc; exact hc
  | succ n ih =>
    intro lo m hc
    apply ih (lo + 1)
    rw [prio_write_memBus]
    by_cases hx : a = wadd (wadd (PLIC_PPTR_BASE cfg) PLIC_PRIO) (PLIC_PRIO_PER_ID * lo)
    · simp only [← hx, if_true]
      rfl
    · simp only [hx, if_false]
      exact hc

theorem prio_loop_sets_two (cfg : Config) (s : Nat) (n : Nat) :
    ∀ (lo : Nat) (m : Mem), lo ≤ s → s < lo + n →
      forLoop (plic_init_controller_prio cfg memBus) lo n m
        (wadd (wadd (PLIC_PPTR_BASE cfg) PLIC_PRIO) (PLIC_PRIO_PER_ID * s)) % 2 ^ 32 = 2 := by
  induction n with
  | zero => intro lo m h1 h2; omega
  | succ n ih =>
    intro lo m h1 h2
    by_cases he : lo = s
    · subst he
      apply prio_loop_keeps_two cfg _ n (lo + 1)
      rw [prio_write_memBus]
      simp
    · exact ih (lo + 1) _ (by omega) (by omega)

/-- Claim C4, as the code has it: after `plic_init_controller`, from any prior
memory, the priority register at `PLIC base + 0x0 + 4 * s` reads 2 for every
source `s` with `1 ≤ s ≤ PLIC_MAX_IRQ + 1`, the bound of the priority loop. -/
theorem plic_init_controller_priorities (cfg : Config) (s : Nat) (m : Mem)
    (h1 : 1 ≤ s) (hmax : s ≤ cfg.PLIC_MAX_IRQ + 1) :
    (readl memBus (wadd (wadd (PLIC_PPTR_BASE cfg) PLIC_PRIO) (PLIC_PRIO_PER_ID * s))
      (plic_init_controller cfg memBus m)).1 = 2 := by
  simp only [plic_init_controller, forRange, readl_memBus, wadd_mod]
  exact prio_loop_sets_two cfg s _ 1 _ h1 (by omega)

theorem plic_init_controller_priorities_witness :
    1 ≤ 31 ∧ 31 ≤ generalCfg.PLIC_MAX_IRQ + 1
    ∧ (readl memBus
        (wadd (wadd (PLIC_PPTR_BASE generalCfg) PLIC_PRIO) (PLIC_PRIO_PER_ID * 31))
        (plic_init_controller generalCfg memBus zeroMem)).1 = 2 :=
  ⟨by decide, by decide,
    plic_init_controller_priorities generalCfg 31 zeroMem (by decide) (by decide)⟩

/-- On plain memory one round of the drain loop changes at most the word at
the claim register address of the boot hart. -/
theorem drain_memBus_frame (cfg : Config) (i : Nat) (m : Mem) (a : Nat)
    (ha : a ≠ wadd (PLIC_PPTR_BASE cfg)
      (plic_claim_offset cfg (PLIC_HART_ID cfg) PLIC_SVC_CONTEXT)) :
    plic_init_controller_drain cfg memBus i m a = m a := by
  simp only [plic_init_controller_drain, plic_pending_interrupt, readl_memBus, writel_memBus,
    wadd_mod]
  split
  · simp [ha]
  · rfl

theorem drain_loop_memBus_frame (cfg : Config) (a : Nat)
    (ha : a ≠ wadd (PLIC_PPTR_BASE cfg)
      (plic_claim_offset cfg (PLIC_HART_ID cfg) PLIC_SVC_CONTEXT)) (n : Nat) :
    ∀ (lo : Nat) (m : Mem), forLoop (plic_init_controller_drain cfg memBus) lo n m a = m a := by
  induction n with
  | zero => intro lo m; rfl
  | succ n ih =>
    intro lo m
    show forLoop (plic_init_controller_drain cfg memBus) (lo + 1) n _ a = m a
    rw [ih (lo + 1), drain_memBus_frame cfg lo m a ha]

theorem prio_loop_memBus_frame (cfg : Config) (a : Nat) (n : Nat) :
    ∀ (lo : Nat) (m : Mem),
      (∀ i, lo ≤ i → i < lo + n →
        a ≠ wadd (wadd (PLIC_PPTR_BASE cfg) PLIC_PRIO) (PLIC_PRIO_PER_ID * i)) →
      forLoop (plic_init_controller_prio cfg memBus) lo n m a = m a := by
  induction n with
  | zero => intro lo m _; rfl
  | succ n ih =>
    intro lo m hne
    show forLoop (plic_init_controller_prio cfg memBus) (lo + 1) n _ a = m a
    rw [ih (lo + 1) _ (fun i h1 h2 => hne i (by omega) (by omega)), prio_write_memBus]
    simp only [hne lo (le_refl lo) (by omega), if_false]

/-- On plain memory `plic_init_controller` changes only the claim register of
the boot hart and the priority registers of sources `1 .. PLIC_MAX_IRQ + 1`. -/
theorem plic_init_controller_memBus_frame (cfg : Config) (m : Mem) (a : Nat)
    (ha : a ≠ wadd (PLIC_PPTR_BASE cfg)
      (plic_claim_offset cfg (PLIC_HART_ID cfg) PLIC_SVC_CONTEXT))
    (hp : ∀ i, 1 ≤ i → i ≤ cfg.PLIC_MAX_IRQ + 1 →
      a ≠ wadd (wadd (PLIC_PPTR_BASE cfg) PLIC_PRIO) (PLIC_PRIO_PER_ID * i)) :
    plic_init_controller cfg memBus m a = m a := by
  simp only [plic_init_controller, forRange]
  rw [prio_loop_memBus_frame cfg a _ 1 _ (fun i h1 h2 => hp i h1 (by omega)),
    drain_loop_memBus_frame cfg a ha]

theorem generalCfg_prio_511 :
    (readl memBus (wadd (wadd (PLIC_PPTR_BASE generalCfg) PLIC_PRIO) (PLIC_PRIO_PER_ID * 511))
      (plic_init_controller generalCfg memBus zeroMem)).1 = 0 := by
  have hb : PLIC_PPTR_BASE generalCfg = 0xFFFFFFFFCC000000 := by decide
  have hc : plic_claim_offset generalCfg (PLIC_HART_ID generalCfg) PLIC_SVC_CONTEXT
      = 0x201004 := by decide
  rw [readl_memBus, wadd_mod, plic_init_controller_memBus_frame]
  · rfl
  · rw [hb, hc]
    decide
  · intro i h1 h2
    have h3 : i ≤ 31 := h2
    rw [hb]
    simp only [wadd, PLIC_PRIO, PLIC_PRIO_PER_ID]
    omega

/-- Claim C4 fails as stated: on the general variant (`N = 511`) of a platform
with `PLIC_MAX_IRQ = 30`, starting from all-zero memory, the priority register
of source 511 reads 0 after `plic_init_controller`. -/
theorem plic_init_controller_priorities_counterexample :
    ¬ ∀ s : Nat, 1 ≤ s → s ≤ PLIC_NUM_INTERRUPTS generalCfg →
      (readl memBus (wadd (wadd (PLIC_PPTR_BASE generalCfg) PLIC_PRIO) (PLIC_PRIO_PER_ID * s))
        (plic_init_controller generalCfg memBus zeroMem)).1 = 2 := by
  intro hall
  have h := hall 511 (by decide) (by decide)
  rw [generalCfg_prio_511] at h
  exact absurd h (by decide)

/-! ## Controller initialisation: draining -/

set_option maxRecDepth 100000 in
theorem bootDev_before :
    (plic_pending_interrupt hifiveCfg (plicBus hifiveCfg) 3 bootDev).1 = true
    ∧ (plic_pending_interrupt hifiveCfg (plicBus hifiveCfg) 7 bootDev).1 = true
    ∧ hwBest hifiveCfg bootDev.reg
        (claimContext hifiveCfg (wadd (PLIC_PPTR_BASE hifiveCfg)
          (plic_claim_offset hifiveCfg (PLIC_HART_ID hifiveCfg) PLIC_SVC_CONTEXT))) = 7 := by
  decide

set_option maxRecDepth 100000 in
theorem bootDev_after :
    (plic_pending_interrupt hifiveCfg (plicBus hifiveCfg) 3
      (plic_init_controller hifiveCfg (plicBus hifiveCfg) bootDev)).1 = true
    ∧ (plic_pending_interrupt hifiveCfg (plicBus hifiveCfg) 7
      (plic_init_controller hifiveCfg (plicBus hifiveCfg) bootDev)).1 = false := by
  decide

set_option maxRecDepth 100000 in
theorem bootDev_claim_accesses :
    (plic_init_controller hifiveCfg (plicBus hifiveCfg).traced (bootDev, [])).2.filter
        (fun a => decide (a.addr = wadd (PLIC_PPTR_BASE hifiveCfg)
          (plic_claim_offset hifiveCfg (PLIC_HART_ID hifiveCfg) PLIC_SVC_CONTEXT)))
      = [Access.read 0xFFFFFFFFCC202004 7, Access.write 3 0xFFFFFFFFCC202004] := by
  decide

/-- Claim C5 at a boot state of the HiFive build with sources 3 and 7 pending
(both enabled for the boot hart's supervisor context, source 7 of higher
priority): `plic_pending_interrupt` reports both pending before
`plic_init_controller`, and after it source 3 is still pending. The one claim
of the drain loop, made at `i = 3`, returns source 7, and source 7 is no longer
pending when the loop reaches `i = 7`. -/
theorem plic_init_controller_leaves_pending :
    (plic_pending_interrupt hifiveCfg (plicBus hifiveCfg) 3 bootDev).1 = true
    ∧ (plic_pending_interrupt hifiveCfg (plicBus hifiveCfg) 7 bootDev).1 = true
    ∧ (plic_pending_interrupt hifiveCfg (plicBus hifiveCfg) 3
        (plic_init_controller hifiveCfg (plicBus hifiveCfg) bootDev)).1 = true
    ∧ (plic_pending_interrupt hifiveCfg (plicBus hifiveCfg) 7
        (plic_init_controller hifiveCfg (plicBus hifiveCfg) bootDev)).1 = false :=
  ⟨bootDev_before.1, bootDev_before.2.1, bootDev_after.1, bootDev_after.2⟩

/-- Claim C10 at the same boot state: the accesses of `plic_init_controller` to
the claim register are one read, which returns source 7, followed by one write,
which carries the loop index 3 and not the ID that was claimed. -/
theorem plic_init_controller_completes_loop_index :
    (plic_init_controller hifiveCfg (plicBus hifiveCfg).traced (bootDev, [])).2.filter
        (fun a => decide (a.addr = wadd (PLIC_PPTR_BASE hifiveCfg)
          (plic_claim_offset hifiveCfg (PLIC_HART_ID hifiveCfg) PLIC_SVC_CONTEXT)))
      = [Access.read (wadd (PLIC_PPTR_BASE hifiveCfg)
            (plic_claim_offset hifiveCfg (PLIC_HART_ID hifiveCfg) PLIC_SVC_CONTEXT)) 7,
          Access.write 3 (wadd (PLIC_PPTR_BASE hifiveCfg)
            (plic_claim_offset hifiveCfg (PLIC_HART_ID hifiveCfg) PLIC_SVC_CONTEXT))] :=
  bootDev_claim_accesses

/-! ## Frame of masking and unmasking -/

/-- The word offset and bit index of a source that fits `interrupt_t`. -/
theorem irq_word_offset32 (s : Nat) (hs : s < 2 ^ 32) :
    u32 (u32 s / 32 * 4) = s / 32 * 4 ∧ u32 s % 32 = s % 32 ∧ s / 32 * 4 < 2 ^ 32 := by
  unfold u32
  omega

/-- The bits of the value `plic_mask_irq` stores, given the value `v` it read. -/
theorem testBit_mask_val (d : Bool) (v b j : Nat) (hb : b < 32) :
    ((if d = true then u32 (v &&& wnot (BIT b)) else u32 (v ||| BIT b)) % 2 ^ 32).testBit j
      = (decide (j < 32)
          && (if d = true then (v.testBit j && !decide (b = j))
              else (v.testBit j || decide (b = j)))) := by
  cases d
  · simp only [Bool.false_eq_true, if_false]
    rw [Nat.mod_eq_of_lt (u32_lt _), testBit_set _ _ _ hb]
  · simp only [if_true]
    rw [Nat.mod_eq_of_lt (u32_lt _), testBit_clear _ _ _ hb]

/-- Claim C12: on hart `h`, for any ID `irq` of type `interrupt_t`, any flag and
any prior memory, `plic_mask_irq` leaves every word other than the one at
`PLIC base + plic_enable_offset(h, 1) + (irq / 32) * 4` as it was, and in that
word every bit other than bit `irq % 32` as it was. -/
theorem plic_mask_irq_frame (cfg : Config) (h irq : Nat) (d : Bool) (m : Mem)
    (hh : get_hart_id cfg = h) (hirq : irq < 2 ^ 32) :
    (∀ x, x ≠ wadd (wadd (PLIC_PPTR_BASE cfg) (plic_enable_offset cfg h PLIC_SVC_CONTEXT))
          (irq / 32 * 4) →
        plic_mask_irq cfg memBus d irq m x = m x)
    ∧ ∀ j, j ≠ irq % 32 →
        (readl memBus
          (wadd (wadd (PLIC_PPTR_BASE cfg) (plic_enable_offset cfg h PLIC_SVC_CONTEXT))
            (irq / 32 * 4))
          (plic_mask_irq cfg memBus d irq m)).1.testBit j
        = (readl memBus
          (wadd (wadd (PLIC_PPTR_BASE cfg) (plic_enable_offset cfg h PLIC_SVC_CONTEXT))
            (irq / 32 * 4)) m).1.testBit j := by
  subst hh
  obtain ⟨ho, hb, -⟩ := irq_word_offset32 irq hirq
  have hlt : irq % 32 < 32 := Nat.mod_lt _ (by norm_num)
  constructor
  · intro x hx
    rw [plic_mask_irq_memBus, ho]
    simp only [hx, if_false]
  · intro j hj
    rw [readl_memBus, readl_memBus, plic_mask_irq_memBus, ho, hb, wadd_mod]
    simp only [if_true]
    rw [testBit_mask_val d _ _ j hlt, Nat.testBit_mod_two_pow]
    have hne : decide (irq % 32 = j) = false := by
      simp only [decide_eq_false_iff_not]
      exact fun e => hj e.symm
    rw [hne]
    cases d <;> simp

theorem plic_mask_irq_frame_witness :
    get_hart_id hifiveCfg = 1 ∧ 35 < 2 ^ 32
    ∧ (∀ x, x ≠ wadd (wadd (PLIC_PPTR_BASE hifiveCfg)
            (plic_enable_offset hifiveCfg 1 PLIC_SVC_CONTEXT)) (35 / 32 * 4) →
        plic_mask_irq hifiveCfg memBus true 35 fullMem x = fullMem x)
    ∧ ∀ j, j ≠ 35 % 32 →
        (readl memBus
          (wadd (wadd (PLIC_PPTR_BASE hifiveCfg) (plic_enable_offset hifiveCfg 1 PLIC_SVC_CONTEXT))
            (35 / 32 * 4))
          (plic_mask_irq hifiveCfg memBus true 35 fullMem)).1.testBit j
        = (readl memBus
          (wadd (wadd (PLIC_PPTR_BASE hifiveCfg) (plic_enable_offset hifiveCfg 1 PLIC_SVC_CONTEXT))
            (35 / 32 * 4)) fullMem).1.testBit j :=
  ⟨by decide, by decide,
    plic_mask_irq_frame hifiveCfg 1 35 true fullMem (by decide) (by decide)⟩

/-! ## Masking two sources in either order -/

/-- The bits of the value `plic_mask_irq` stores, as a 32-bit word. -/
theorem testBit_mask_store (d : Bool) (v b j : Nat) (hb : b < 32) :
    (if d = true then u32 (v &&& wnot (BIT b)) else u32 (v ||| BIT b)).testBit j
      = (decide (j < 32)
          && (if d = true then (v.testBit j && !decide (b = j))
              else (v.testBit j || decide (b = j)))) := by
  have h := testBit_mask_val d v b j hb
  rw [Nat.mod_eq_of_lt] at h
  · exact h
  · cases d
    · simp only [Bool.false_eq_true, if_false]; exact u32_lt _
    · simp only [if_true]; exact u32_lt _

/-- Two updates of different bits of one word commute. -/
theorem mask_store_comm (d1 d2 : Bool) (v b1 b2 : Nat) (hb1 : b1 < 32) (hb2 : b2 < 32)
    (hne : b1 ≠ b2) :
    (if d2 = true
      then u32 ((if d1 = true then u32 (v &&& wnot (BIT b1)) else u32 (v ||| BIT b1)) % 2 ^ 32
        &&& wnot (BIT b2))
      else u32 ((if d1 = true then u32 (v &&& wnot (BIT b1)) else u32 (v ||| BIT b1)) % 2 ^ 32
        ||| BIT b2))
    = (if d1 = true
      then u32 ((if d2 = true then u32 (v &&& wnot (BIT b2)) else u32 (v ||| BIT b2)) % 2 ^ 32
        &&& wnot (BIT b1))
      else u32 ((if d2 = true then u32 (v &&& wnot (BIT b2)) else u32 (v ||| BIT b2)) % 2 ^ 32
        ||| BIT b1)) := by
  apply Nat.eq_of_testBit_eq
  intro j
  rw [testBit_mask_store d2 _ b2 j hb2, testBit_mask_store d1 _ b1 j hb1,
    testBit_mask_val d1 v b1 j hb1, testBit_mask_val d2 v b2 j hb2]
  by_cases h1 : b1 = j
  · have h2 : ¬ b2 = j := fun e => hne (h1.trans e.symm)
    cases d1 <;> cases d2 <;> cases v.testBit j <;> cases decide (j < 32) <;> simp [h1, h2]
  · by_cases h2 : b2 = j
    · cases d1 <;> cases d2 <;> cases v.testBit j <;> cases decide (j < 32) <;> simp [h1, h2]
    · cases d1 <;> cases d2 <;> cases v.testBit j <;> cases decide (j < 32) <;> simp [h1, h2]

/-- Claim C14: on any hart, for any flags and two distinct IDs below `2 ^ 32`,
`plic_mask_irq(d1, s1)` followed by `plic_mask_irq(d2, s2)` leaves memory in
the same state as the two calls in the other order, whether or not `s1` and
`s2` share an enable word. -/
theorem plic_mask_irq_comm (cfg : Config) (s1 s2 : Nat) (d1 d2 : Bool) (m : Mem)
    (hs1 : s1 < 2 ^ 32) (hs2 : s2 < 2 ^ 32) (hne : s1 ≠ s2) :
    plic_mask_irq cfg memBus d2 s2 (plic_mask_irq cfg memBus d1 s1 m)
      = plic_mask_irq cfg memBus d1 s1 (plic_mask_irq cfg memBus d2 s2 m) := by
  obtain ⟨ho1, hb1, hk1⟩ := irq_word_offset32 s1 hs1
  obtain ⟨ho2, hb2, hk2⟩ := irq_word_offset32 s2 hs2
  have hl1 : s1 % 32 < 32 := Nat.mod_lt _ (by norm_num)
  have hl2 : s2 % 32 < 32 := Nat.mod_lt _ (by norm_num)
  rw [plic_mask_irq_memBus cfg d2 s2 (plic_mask_irq cfg memBus d1 s1 m),
    plic_mask_irq_memBus cfg d1 s1 (plic_mask_irq cfg memBus d2 s2 m),
    plic_mask_irq_memBus cfg d1 s1 m, plic_mask_irq_memBus cfg d2 s2 m, ho1, ho2, hb1, hb2]
  have hbase : wadd (PLIC_PPTR_BASE cfg)
      (plic_enable_offset cfg (get_hart_id cfg) PLIC_SVC_CONTEXT) < 2 ^ 64 := wadd_lt _ _
  generalize wadd (PLIC_PPTR_BASE cfg)
      (plic_enable_offset cfg (get_hart_id cfg) PLIC_SVC_CONTEXT) = A0 at hbase
  funext x
  by_cases hw : s1 / 32 = s2 / 32
  · have hbne : s1 % 32 ≠ s2 % 32 := by omega
    rw [hw]
    by_cases hx : x = wadd A0 (s2 / 32 * 4)
    · simp only [hx, if_true]
      exact mask_store_comm d1 d2 _ _ _ hl1 hl2 hbne
    · simp only [hx, if_false]
  · have hA : wadd A0 (s1 / 32 * 4) ≠ wadd A0 (s2 / 32 * 4) := by
      simp only [wadd]
      omega
    by_cases hx1 : x = wadd A0 (s1 / 32 * 4)
    · have hx2 : ¬ x = wadd A0 (s2 / 32 * 4) := fun e => hA (hx1.symm.trans e)
      simp only [hx1, hA, if_true, if_false]
    · by_cases hx2 : x = wadd A0 (s2 / 32 * 4)
      · simp only [hx2, hA.symm, if_true, if_false]
      · simp only [hx1, hx2, if_false]

theorem plic_mask_irq_comm_witness :
    3 < 2 ^ 32 ∧ 7 < 2 ^ 32 ∧ (3 : Nat) ≠ 7
    ∧ plic_mask_irq hifiveCfg memBus false 7 (plic_mask_irq hifiveCfg memBus true 3 fullMem)
      = plic_mask_irq hifiveCfg memBus true 3 (plic_mask_irq hifiveCfg memBus false 7 fullMem) :=
  ⟨by decide, by decide, by decide,
    plic_mask_irq_comm hifiveCfg 3 7 true false fullMem (by decide) (by decide) (by decide)⟩

/-! ## Frame of per-hart initialisation -/

theorem mask_loop_frame (cfg : Config) (x : Nat) (n : Nat) :
    ∀ (lo : Nat) (m : Mem),
      (∀ i, lo ≤ i → i < lo + n →
        x ≠ wadd (wadd (PLIC_PPTR_BASE cfg)
          (plic_enable_offset cfg (get_hart_id cfg) PLIC_SVC_CONTEXT)) (u32 (u32 i / 32 * 4))) →
      forLoop (fun i s => plic_mask_irq cfg memBus true i s) lo n m x = m x := by
  induction n with
  | zero => intro lo m _; rfl
  | succ n ih =>
    intro lo m hne
    show forLoop (fun i s => plic_mask_irq cfg memBus true i s) (lo + 1) n _ x = m x
    rw [ih (lo + 1) _ (fun i h1 h2 => hne i (by omega) (by omega))]
    beta_reduce
    rw [plic_mask_irq_memBus]
    simp only [hne lo (le_refl lo) (by omega), if_false]

theorem mask_loop_keeps_bit (cfg : Config) (a j : Nat) (n : Nat) :
    ∀ (lo : Nat) (m : Mem),
      (∀ i, lo ≤ i → i < lo + n →
        a ≠ wadd (wadd (PLIC_PPTR_BASE cfg)
          (plic_enable_offset cfg (get_hart_id cfg) PLIC_SVC_CONTEXT)) (u32 (u32 i / 32 * 4))
        ∨ j ≠ u32 i % 32) →
      (forLoop (fun i s => plic_mask_irq cfg memBus true i s) lo n m a % 2 ^ 32).testBit j
        = (m a % 2 ^ 32).testBit j := by
  induction n with
  | zero => intro lo m _; rfl
  | succ n ih =>
    intro lo m hne
    show (forLoop (fun i s => plic_mask_irq cfg memBus true i s) (lo + 1) n _ a
      % 2 ^ 32).testBit j = (m a % 2 ^ 32).testBit j
    rw [ih (lo + 1) _ (fun i h1 h2 => hne i (by omega) (by omega))]
    beta_reduce
    rw [plic_mask_irq_memBus]
    have hlt : u32 lo % 32 < 32 := Nat.mod_lt _ (by norm_num)
    by_cases hx : a = wadd (wadd (PLIC_PPTR_BASE cfg)
        (plic_enable_offset cfg (get_hart_id cfg) PLIC_SVC_CONTEXT)) (u32 (u32 lo / 32 * 4))
    · have hj : j ≠ u32 lo % 32 := by
        rcases hne lo (le_refl lo) (by omega) with h | h
        · exact absurd hx h
        · exact h
      have hd : decide (u32 lo % 32 = j) = false := by
        simp only [decide_eq_false_iff_not]
        exact fun e => hj e.symm
      simp only [← hx, if_true]
      rw [Nat.mod_eq_of_lt (u32_lt _), testBit_clear _ _ _ hlt, hd, Nat.testBit_mod_two_pow]
      simp
    · simp only [hx, if_false]

/-- On plain memory `plic_init_hart` changes at most the threshold register and
the enable words `0 .. N / 32` of the current hart's supervisor context. -/
theorem plic_init_hart_memBus_frame (cfg : Config) (m : Mem) (x : Nat)
    (hT : x ≠ wadd (PLIC_PPTR_BASE cfg)
      (plic_thres_offset cfg (get_hart_id cfg) PLIC_SVC_CONTEXT))
    (hE : ∀ w, w ≤ PLIC_NUM_INTERRUPTS cfg / 32 →
      x ≠ wadd (wadd (PLIC_PPTR_BASE cfg)
        (plic_enable_offset cfg (get_hart_id cfg) PLIC_SVC_CONTEXT)) (w * 4)) :
    plic_init_hart cfg memBus m x = m x := by
  simp only [plic_init_hart, forRange, writel_memBus, wadd_mod, hT, if_false]
  apply mask_loop_frame
  intro i h1 h2
  have hN := PLIC_NUM_INTERRUPTS_le cfg
  have hi : i ≤ PLIC_NUM_INTERRUPTS cfg := by omega
  obtain ⟨ho, -, -⟩ := irq_word_offset i (by omega)
  rw [ho]
  exact hE (i / 32) (Nat.div_le_div_right hi)

/-- Adding to an address twice is adding the sum. -/
theorem wadd_wadd (B e k : Nat) : wadd (wadd B e) k = wadd B (e + k) := by
  simp only [wadd]
  omega

/-- Two different offsets from one base give two different addresses. -/
theorem wadd_ne_of_offsets (B a b : Nat) (ha : a < 2 ^ 64) (hb : b < 2 ^ 64) (hne : a ≠ b) :
    wadd B a ≠ wadd B b := by
  simp only [wadd]
  omega

/-- The number of context strides the platform adjustment takes off: 0 or 1. -/
theorem variant_adjust_le (cfg : Config) :
    (if cfg.CONFIG_PLAT_HIFIVE = true then 1 else 0 : Nat) ≤ 1 := by
  split <;> omega

/-- The enable offset of a hart below `2 ^ 32`, without modular arithmetic. -/
theorem plic_enable_offset_small (cfg : Config) (h c : Nat) (hh : h < 2 ^ 32) (hc : c ≤ 1) :
    plic_enable_offset cfg h c + 0x80 * (if cfg.CONFIG_PLAT_HIFIVE = true then 1 else 0)
      = 0x2000 + h * 0x100 + c * 0x80 := by
  simp only [plic_enable_offset, PLAT_PLIC_EN_ADJUST, wadd, wsub, wmul, PLIC_EN,
    PLIC_EN_PER_HART, PLIC_EN_PER_CONTEXT]
  cases cfg.CONFIG_PLAT_HIFIVE <;> simp only [Bool.false_eq_true, if_false, if_true] <;> omega

/-- The threshold offset of a hart below `2 ^ 32`, without modular arithmetic. -/
theorem plic_thres_offset_small (cfg : Config) (h c : Nat) (hh : h < 2 ^ 32) (hc : c ≤ 1) :
    plic_thres_offset cfg h c + 0x1000 * (if cfg.CONFIG_PLAT_HIFIVE = true then 1 else 0)
      = 0x200000 + h * 0x2000 + c * 0x1000 := by
  simp only [plic_thres_offset, PLAT_PLIC_THRES_ADJUST, wadd, wsub, wmul, PLIC_THRES,
    PLIC_THRES_PER_HART, PLIC_THRES_PER_CONTEXT]
  cases cfg.CONFIG_PLAT_HIFIVE <;> simp only [Bool.false_eq_true, if_false, if_true] <;> omega

/-- Claim C13: on hart `h`, from any prior memory, `plic_init_hart` leaves
unchanged every word other than `h`'s threshold register and the enable words
`0 .. N / 32` of `h`'s supervisor context. For a hart ID below `2 ^ 32` the bit
of source 0 and the bits of the sources above `N` keep their values, and no
priority register, no pending word and no enable word of another hart inside
the enable region is changed; for a hart whose own enable words lie inside the
enable region, no threshold register of another hart that lies in the
threshold region is changed. -/
theorem plic_init_hart_frame (cfg : Config) (h : Nat) (m : Mem) (hh : get_hart_id cfg = h) :
    (∀ x, x ≠ wadd (PLIC_PPTR_BASE cfg) (plic_thres_offset cfg h PLIC_SVC_CONTEXT) →
        (∀ w, w ≤ PLIC_NUM_INTERRUPTS cfg / 32 →
          x ≠ wadd (wadd (PLIC_PPTR_BASE cfg) (plic_enable_offset cfg h PLIC_SVC_CONTEXT))
            (w * 4)) →
        plic_init_hart cfg memBus m x = m x)
    ∧ (h < 2 ^ 32 →
        (∀ s, (s = 0 ∨ PLIC_NUM_INTERRUPTS cfg < s) → s < 1024 →
          (readl memBus
            (wadd (wadd (PLIC_PPTR_BASE cfg) (plic_enable_offset cfg h PLIC_SVC_CONTEXT))
              (s / 32 * 4)) (plic_init_hart cfg memBus m)).1.testBit (s % 32)
          = (readl memBus
            (wadd (wadd (PLIC_PPTR_BASE cfg) (plic_enable_offset cfg h PLIC_SVC_CONTEXT))
              (s / 32 * 4)) m).1.testBit (s % 32))
        ∧ (∀ s, s < 1024 →
            plic_init_hart cfg memBus m
              (wadd (wadd (PLIC_PPTR_BASE cfg) PLIC_PRIO) (PLIC_PRIO_PER_ID * s))
            = m (wadd (wadd (PLIC_PPTR_BASE cfg) PLIC_PRIO) (PLIC_PRIO_PER_ID * s)))
        ∧ (∀ w, w < 32 →
            plic_init_hart cfg memBus m (wadd (wadd (PLIC_PPTR_BASE cfg) PLIC_PENDING) (w * 4))
            = m (wadd (wadd (PLIC_PPTR_BASE cfg) PLIC_PENDING) (w * 4)))
        ∧ (∀ h2 c2 w, h2 ≠ h → PLIC_EN + (h2 + 1) * PLIC_EN_PER_HART ≤ PLIC_THRES →
            c2 ≤ 1 → w < 32 →
            plic_init_hart cfg memBus m
              (wadd (wadd (PLIC_PPTR_BASE cfg) (plic_enable_offset cfg h2 c2)) (w * 4))
            = m (wadd (wadd (PLIC_PPTR_BASE cfg) (plic_enable_offset cfg h2 c2)) (w * 4))))
    ∧ (PLIC_EN + (h + 1) * PLIC_EN_PER_HART ≤ PLIC_THRES →
        ∀ h2 c2, h2 ≠ h → h2 < 2 ^ 32 → c2 ≤ 1 → PLIC_THRES ≤ plic_thres_offset cfg h2 c2 →
          plic_init_hart cfg memBus m (wadd (PLIC_PPTR_BASE cfg) (plic_thres_offset cfg h2 c2))
          = m (wadd (PLIC_PPTR_BASE cfg) (plic_thres_offset cfg h2 c2))) := by
  subst hh
  have hN := PLIC_NUM_INTERRUPTS_le cfg
  have ha := variant_adjust_le cfg
  refine ⟨fun x hT hE => plic_init_hart_memBus_frame cfg m x hT hE, fun hv => ⟨?_, ?_, ?_, ?_⟩, ?_⟩
  · intro s hs hs2
    have he := plic_enable_offset_small cfg (get_hart_id cfg) PLIC_SVC_CONTEXT hv (le_refl 1)
    have ht := plic_thres_offset_small cfg (get_hart_id cfg) PLIC_SVC_CONTEXT hv (le_refl 1)
    have hT : wadd (wadd (PLIC_PPTR_BASE cfg)
          (plic_enable_offset cfg (get_hart_id cfg) PLIC_SVC_CONTEXT)) (s / 32 * 4)
        ≠ wadd (PLIC_PPTR_BASE cfg)
          (plic_thres_offset cfg (get_hart_id cfg) PLIC_SVC_CONTEXT) := by
      rw [wadd_wadd]
      simp only [PLIC_SVC_CONTEXT] at he ht ⊢
      apply wadd_ne_of_offsets <;> omega
    rw [readl_memBus, readl_memBus, wadd_mod]
    simp only [plic_init_hart, forRange, writel_memBus, wadd_mod, hT, if_false]
    apply mask_loop_keeps_bit
    intro i h1 h2
    have hi : i ≤ 511 := by omega
    obtain ⟨ho, hb, -⟩ := irq_word_offset i hi
    rw [ho, hb]
    have hA : wadd (PLIC_PPTR_BASE cfg)
        (plic_enable_offset cfg (get_hart_id cfg) PLIC_SVC_CONTEXT) < 2 ^ 64 := wadd_lt _ _
    generalize wadd (PLIC_PPTR_BASE cfg)
        (plic_enable_offset cfg (get_hart_id cfg) PLIC_SVC_CONTEXT) = A0 at hA
    by_cases hw : s / 32 = i / 32
    · right
      omega
    · left
      simp only [wadd]
      omega
  · intro s hs
    have he := plic_enable_offset_small cfg (get_hart_id cfg) PLIC_SVC_CONTEXT hv (le_refl 1)
    have ht := plic_thres_offset_small cfg (get_hart_id cfg) PLIC_SVC_CONTEXT hv (le_refl 1)
    simp only [PLIC_SVC_CONTEXT] at he ht
    apply plic_init_hart_memBus_frame
    · rw [wadd_wadd]
      simp only [PLIC_SVC_CONTEXT, PLIC_PRIO, PLIC_PRIO_PER_ID]
      apply wadd_ne_of_offsets <;> omega
    · intro w hw
      rw [wadd_wadd, wadd_wadd]
      simp only [PLIC_SVC_CONTEXT, PLIC_PRIO, PLIC_PRIO_PER_ID]
      apply wadd_ne_of_offsets <;> omega
  · intro w hw
    have he := plic_enable_offset_small cfg (get_hart_id cfg) PLIC_SVC_CONTEXT hv (le_refl 1)
    have ht := plic_thres_offset_small cfg (get_hart_id cfg) PLIC_SVC_CONTEXT hv (le_refl 1)
    simp only [PLIC_SVC_CONTEXT] at he ht
    apply plic_init_hart_memBus_frame
    · rw [wadd_wadd]
      simp only [PLIC_SVC_CONTEXT, PLIC_PENDING]
      apply wadd_ne_of_offsets <;> omega
    · intro w2 hw2
      rw [wadd_wadd, wadd_wadd]
      simp only [PLIC_SVC_CONTEXT, PLIC_PENDING]
      apply wadd_ne_of_offsets <;> omega
  · intro h2 c2 w hne hv2 hc2 hw
    simp only [PLIC_EN, PLIC_EN_PER_HART, PLIC_THRES] at hv2
    have he := plic_enable_offset_small cfg (get_hart_id cfg) PLIC_SVC_CONTEXT hv (le_refl 1)
    have ht := plic_thres_offset_small cfg (get_hart_id cfg) PLIC_SVC_CONTEXT hv (le_refl 1)
    have he2 := plic_enable_offset_small cfg h2 c2 (by omega) hc2
    simp only [PLIC_SVC_CONTEXT] at he ht
    apply plic_init_hart_memBus_frame
    · rw [wadd_wadd]
      simp only [PLIC_SVC_CONTEXT]
      apply wadd_ne_of_offsets <;> omega
    · intro w2 hw2
      rw [wadd_wadd, wadd_wadd]
      simp only [PLIC_SVC_CONTEXT]
      apply wadd_ne_of_offsets <;> omega
  · intro hv h2 c2 hne hv2 hc2 hreg
    simp only [PLIC_EN, PLIC_EN_PER_HART, PLIC_THRES] at hv hreg
    have he := plic_enable_offset_small cfg (get_hart_id cfg) PLIC_SVC_CONTEXT (by omega)
      (le_refl 1)
    have ht := plic_thres_offset_small cfg (get_hart_id cfg) PLIC_SVC_CONTEXT (by omega)
      (le_refl 1)
    have ht2 := plic_thres_offset_small cfg h2 c2 hv2 hc2
    simp only [PLIC_SVC_CONTEXT] at he ht
    apply plic_init_hart_memBus_frame
    · simp only [PLIC_SVC_CONTEXT]
      apply wadd_ne_of_offsets <;> omega
    · intro w2 hw2
      rw [wadd_wadd]
      simp only [PLIC_SVC_CONTEXT]
      apply wadd_ne_of_offsets <;> omega

theorem plic_init_hart_frame_witness :
    get_hart_id hifiveCfg = 1
    ∧ (∀ x, x ≠ wadd (PLIC_PPTR_BASE hifiveCfg) (plic_thres_offset hifiveCfg 1 PLIC_SVC_CONTEXT) →
        (∀ w, w ≤ PLIC_NUM_INTERRUPTS hifiveCfg / 32 →
          x ≠ wadd (wadd (PLIC_PPTR_BASE hifiveCfg)
            (plic_enable_offset hifiveCfg 1 PLIC_SVC_CONTEXT)) (w * 4)) →
        plic_init_hart hifiveCfg memBus fullMem x = fullMem x)
    ∧ (readl memBus
        (wadd (wadd (PLIC_PPTR_BASE hifiveCfg) (plic_enable_offset hifiveCfg 1 PLIC_SVC_CONTEXT))
          (54 / 32 * 4)) (plic_init_hart hifiveCfg memBus fullMem)).1.testBit (54 % 32)
      = (readl memBus
        (wadd (wadd (PLIC_PPTR_BASE hifiveCfg) (plic_enable_offset hifiveCfg 1 PLIC_SVC_CONTEXT))
          (54 / 32 * 4)) fullMem).1.testBit (54 % 32)
    ∧ plic_init_hart hifiveCfg memBus fullMem
        (wadd (PLIC_PPTR_BASE hifiveCfg) (plic_thres_offset hifiveCfg 2 1))
      = fullMem (wadd (PLIC_PPTR_BASE hifiveCfg) (plic_thres_offset hifiveCfg 2 1)) :=
  ⟨by decide,
    (plic_init_hart_frame hifiveCfg 1 fullMem (by decide)).1,
    ((plic_init_hart_frame hifiveCfg 1 fullMem (by decide)).2.1 (by decide)).1 54
      (Or.inr (by decide)) (by decide),
    (plic_init_hart_frame hifiveCfg 1 fullMem (by decide)).2.2 (by decide) 2 1 (by decide)
      (by decide) (by decide) (by decide)⟩

/-! ## Claiming when nothing is pending -/

/-- The claim register of a hart below `2 ^ 32` is a claim register of the
register table. -/
theorem claim_address_isClaimReg (cfg : Config) (h : Nat) (hv : h < 2 ^ 32) :
    isClaimReg cfg (wadd (PLIC_PPTR_BASE cfg) (plic_claim_offset cfg h PLIC_SVC_CONTEXT))
      = true := by
  have ht := plic_thres_offset_small cfg h PLIC_SVC_CONTEXT hv (le_refl 1)
  have ha := variant_adjust_le cfg
  have hb : PLIC_PPTR_BASE cfg < 2 ^ 64 := wadd_lt _ _
  simp only [PLIC_SVC_CONTEXT] at ht
  simp only [isClaimReg, plicOff, plic_claim_offset, wsub, wadd, PLIC_THRES,
    PLIC_THRES_PER_CONTEXT, PLIC_THRES_CLAIM, PLIC_SVC_CONTEXT, Bool.and_eq_true,
    decide_eq_true_eq]
  generalize PLIC_PPTR_BASE cfg = B at hb
  constructor <;> omega

/-- The selection loop keeps its candidate when no source of its range is both
pending and enabled. -/
theorem hwBest_loop_none (cfg : Config) (reg : Mem) (k : Nat) (n : Nat) :
    ∀ (lo best : Nat),
      (∀ s, lo ≤ s → s < lo + n → (hwPending cfg reg s && hwEnabled cfg reg k s) = false) →
      forLoop (fun s best =>
        if hwPending cfg reg s && hwEnabled cfg reg k s
            && (best == 0 || decide (hwPriority cfg reg best < hwPriority cfg reg s))
        then s else best) lo n best = best := by
  induction n with
  | zero => intro lo best _; rfl
  | succ n ih =>
    intro lo best hnone
    show forLoop _ (lo + 1) n _ = best
    rw [ih (lo + 1) _ (fun s h1 h2 => hnone s (by omega) (by omega))]
    simp [hnone lo (le_refl lo) (by omega)]

/-- Claim C11: on a hart `h` below `2 ^ 32`, in a state of the controller where
no source in `[1, N]` is both pending and enabled for `h`'s supervisor context,
`plic_get_claim` returns 0 and leaves the state as it was, and after any number
of repeated calls a further call still returns 0. -/
theorem plic_get_claim_none_pending (cfg : Config) (h : Nat) (d : PlicDev)
    (hh : get_hart_id cfg = h) (hv : h < 2 ^ 32)
    (hnone : ∀ s, 1 ≤ s → s ≤ PLIC_NUM_INTERRUPTS cfg →
      (hwPending cfg d.reg s
        && hwEnabled cfg d.reg
          (claimContext cfg
            (wadd (PLIC_PPTR_BASE cfg) (plic_claim_offset cfg h PLIC_SVC_CONTEXT))) s) = false) :
    (plic_get_claim cfg (plicBus cfg) d).1 = 0
    ∧ (plic_get_claim cfg (plicBus cfg) d).2 = d
    ∧ ∀ n : Nat,
        (plic_get_claim cfg (plicBus cfg)
          ((fun x => (plic_get_claim cfg (plicBus cfg) x).2)^[n] d)).1 = 0 := by
  subst hh
  have hreg := claim_address_isClaimReg cfg (get_hart_id cfg) hv
  have hbest : hwBest cfg d.reg (claimContext cfg
      (wadd (PLIC_PPTR_BASE cfg) (plic_claim_offset cfg (get_hart_id cfg) PLIC_SVC_CONTEXT)))
      = 0 := by
    unfold hwBest forRange
    exact hwBest_loop_none cfg d.reg _ _ 1 0 (fun s h1 h2 => hnone s h1 (by omega))
  have hget : plic_get_claim cfg (plicBus cfg) d = (0, d) := by
    simp only [plic_get_claim, readl, plicBus, wadd_mod, hreg, hbest, if_true]
    rfl
  have hfix : ∀ n : Nat, (fun x => (plic_get_claim cfg (plicBus cfg) x).2)^[n] d = d := by
    intro n
    apply Function.iterate_fixed
    show (plic_get_claim cfg (plicBus cfg) d).2 = d
    rw [hget]
  refine ⟨by rw [hget], by rw [hget], fun n => ?_⟩
  rw [hfix n, hget]

theorem plic_get_claim_none_pending_witness :
    get_hart_id hifiveCfg = 1 ∧ 1 < 2 ^ 32
    ∧ (plic_get_claim hifiveCfg (plicBus hifiveCfg) idleDev).1 = 0
    ∧ (plic_get_claim hifiveCfg (plicBus hifiveCfg) idleDev).2 = idleDev
    ∧ ∀ n : Nat,
        (plic_get_claim hifiveCfg (plicBus hifiveCfg)
          ((fun x => (plic_get_claim hifiveCfg (plicBus hifiveCfg) x).2)^[n] idleDev)).1 = 0 :=
  ⟨by decide, by decide,
    plic_get_claim_none_pending hifiveCfg 1 idleDev (by decide) (by decide)
      (fun s _ _ => by simp [hwPending, idleDev, zeroMem])⟩

/-! ## The writes of controller initialisation -/

theorem forLoop_invariant {σ : Type} (P : σ → Prop) (body : Nat → σ → σ) (n : Nat) :
    ∀ (lo : Nat) (s : σ), P s →
      (∀ i s, lo ≤ i → i < lo + n → P s → P (body i s)) → P (forLoop body lo n s) := by
  induction n with
  | zero => intro lo s hs _; exact hs
  | succ n ih =>
    intro lo s hs hstep
    exact ih (lo + 1) _ (hstep lo s (le_refl lo) (by omega) hs)
      (fun i s h1 h2 => hstep i s (by omega) (by omega))

theorem readl_traced_log {σ : Type} (b : Bus σ) (a : Nat) (st : σ × List Access) :
    (readl b.traced a st).2.2
      = st.2 ++ [Access.read (a % 2 ^ 64) (b.load (a % 2 ^ 64) st.1).1] := rfl

theorem writel_traced_log {σ : Type} (b : Bus σ) (v a : Nat) (st : σ × List Access) :
    (writel b.traced v a st).2 = st.2 ++ [Access.write (u32 v) (a % 2 ^ 64)] := rfl

/-- The pending check adds no write to the record. -/
theorem pending_traced_writes (cfg : Config) {σ : Type} (b : Bus σ) (i : Nat)
    (st : σ × List Access) (v addr : Nat)
    (hw : Access.write v addr ∈ (plic_pending_interrupt cfg b.traced i st).2.2) :
    Access.write v addr ∈ st.2 := by
  have hlog : (plic_pending_interrupt cfg b.traced i st).2.2
      = (readl b.traced (wadd (wadd (PLIC_PPTR_BASE cfg) PLIC_PENDING)
          (wmul (i % 2 ^ 64 / 32) 4)) st).2.2 := by
    simp only [plic_pending_interrupt]
    split <;> rfl
  rw [hlog, readl_traced_log] at hw
  simpa using hw

/-- The writes one round of the drain loop adds to the record go to the claim
register of the boot hart. -/
theorem drain_traced_writes (cfg : Config) {σ : Type} (b : Bus σ) (i : Nat)
    (st : σ × List Access) (v addr : Nat)
    (hw : Access.write v addr ∈ (plic_init_controller_drain cfg b.traced i st).2) :
    Access.write v addr ∈ st.2
    ∨ addr = wadd (PLIC_PPTR_BASE cfg)
        (plic_claim_offset cfg (PLIC_HART_ID cfg) PLIC_SVC_CONTEXT) := by
  unfold plic_init_controller_drain at hw
  by_cases hp : (plic_pending_interrupt cfg b.traced i st).1 = true
  · simp only [hp, if_true] at hw
    rw [writel_traced_log, List.mem_append, readl_traced_log, List.mem_append] at hw
    rcases hw with (hw | hw) | hw
    · exact Or.inl (pending_traced_writes cfg b i st v addr hw)
    · simp at hw
    · simp only [List.mem_singleton, Access.write.injEq, wadd_mod] at hw
      exact Or.inr hw.2
  · simp only [hp, if_false] at hw
    exact Or.inl (pending_traced_writes cfg b i st v addr hw)

/-- The write one round of the priority loop adds to the record goes to the
priority register of the loop index. -/
theorem prio_traced_writes (cfg : Config) {σ : Type} (b : Bus σ) (i : Nat)
    (st : σ × List Access) (v addr : Nat)
    (hw : Access.write v addr ∈ (plic_init_controller_prio cfg b.traced i st).2) :
    Access.write v addr ∈ st.2
    ∨ addr = wadd (wadd (PLIC_PPTR_BASE cfg) PLIC_PRIO) (PLIC_PRIO_PER_ID * i) := by
  simp only [plic_init_controller_prio, writel, Bus.traced, wadd_mod, List.mem_append,
    List.mem_singleton, Access.write.injEq] at hw
  rcases hw with hw | hw
  · exact Or.inl hw
  · exact Or.inr hw.2

/-- Over any bus, every write of `plic_init_controller` goes to the claim
register of the boot hart or to the priority register of a source
`1 .. PLIC_MAX_IRQ + 1`. -/
theorem plic_init_controller_traced_writes (cfg : Config) {σ : Type} (b : Bus σ) (st : σ)
    (v addr : Nat)
    (hw : Access.write v addr ∈ (plic_init_controller cfg b.traced (st, [])).2) :
    addr = wadd (PLIC_PPTR_BASE cfg) (plic_claim_offset cfg (PLIC_HART_ID cfg) PLIC_SVC_CONTEXT)
    ∨ ∃ i, 1 ≤ i ∧ i ≤ cfg.PLIC_MAX_IRQ + 1
        ∧ addr = wadd (wadd (PLIC_PPTR_BASE cfg) PLIC_PRIO) (PLIC_PRIO_PER_ID * i) := by
  have h1 : ∀ v addr, Access.write v addr
        ∈ (forLoop (plic_init_controller_drain cfg b.traced) 1
            (PLIC_NUM_INTERRUPTS cfg + 1 - 1) (st, [])).2 →
      addr = wadd (PLIC_PPTR_BASE cfg)
        (plic_claim_offset cfg (PLIC_HART_ID cfg) PLIC_SVC_CONTEXT) := by
    apply forLoop_invariant (fun s : σ × List Access => ∀ v addr, Access.write v addr ∈ s.2 →
      addr = wadd (PLIC_PPTR_BASE cfg)
        (plic_claim_offset cfg (PLIC_HART_ID cfg) PLIC_SVC_CONTEXT))
    · intro v addr hm
      simp at hm
    · intro i s _ _ hs v addr hm
      rcases drain_traced_writes cfg b i s v addr hm with h | h
      · exact hs v addr h
      · exact h
  have h2 := forLoop_invariant (fun s : σ × List Access => ∀ v addr, Access.write v addr ∈ s.2 →
      addr = wadd (PLIC_PPTR_BASE cfg)
        (plic_claim_offset cfg (PLIC_HART_ID cfg) PLIC_SVC_CONTEXT)
      ∨ ∃ i, 1 ≤ i ∧ i ≤ cfg.PLIC_MAX_IRQ + 1
        ∧ addr = wadd (wadd (PLIC_PPTR_BASE cfg) PLIC_PRIO) (PLIC_PRIO_PER_ID * i))
    (plic_init_controller_prio cfg b.traced) (cfg.PLIC_MAX_IRQ + 1 + 1 - 1) 1
    (forLoop (plic_init_controller_drain cfg b.traced) 1
      (PLIC_NUM_INTERRUPTS cfg + 1 - 1) (st, []))
    (fun v addr hm => Or.inl (h1 v addr hm))
    (by
      intro i s hi1 hi2 hs v addr hm
      rcases prio_traced_writes cfg b i s v addr hm with h | h
      · exact hs v addr h
      · exact Or.inr ⟨i, hi1, by omega, h⟩)
  exact h2 v addr hw

/-- A claim offset is the threshold offset plus 4, without wrap-around. -/
theorem plic_claim_offset_eq (cfg : Config) (h c : Nat) :
    plic_claim_offset cfg h c = plic_thres_offset cfg h c + 4 := by
  have ha := plic_thres_offset_aligned cfg h c
  simp only [plic_claim_offset, wadd, PLIC_THRES_CLAIM]
  omega

/-- Claim C15, as the code has it: over any bus and from any prior state, every
write of `plic_init_controller` goes to the supervisor-context claim register
of the configured first hart or to a priority register `PLIC base + 4 * i`
with `1 ≤ i ≤ PLIC_MAX_IRQ + 1`. When the first hart ID is below `2 ^ 32` and
the priority loop stays inside the priority table (`PLIC_MAX_IRQ + 1 ≤ 1023`),
no write goes to the priority register of source 0, to the priority register
of a source above `PLIC_MAX_IRQ + 1`, to an enable word of a hart inside the
enable region, or to a threshold register. -/
theorem plic_init_controller_writes (cfg : Config) {σ : Type} (b : Bus σ) (st : σ)
    (v addr : Nat)
    (hw : Access.write v addr ∈ (plic_init_controller cfg b.traced (st, [])).2) :
    (addr = wadd (PLIC_PPTR_BASE cfg)
        (plic_claim_offset cfg cfg.CONFIG_FIRST_HART_ID PLIC_SVC_CONTEXT)
      ∨ ∃ i, 1 ≤ i ∧ i ≤ cfg.PLIC_MAX_IRQ + 1
          ∧ addr = wadd (wadd (PLIC_PPTR_BASE cfg) PLIC_PRIO) (PLIC_PRIO_PER_ID * i))
    ∧ (cfg.CONFIG_FIRST_HART_ID < 2 ^ 32 → cfg.PLIC_MAX_IRQ + 1 ≤ 1023 →
        addr ≠ wadd (wadd (PLIC_PPTR_BASE cfg) PLIC_PRIO) (PLIC_PRIO_PER_ID * 0)
        ∧ (∀ s, cfg.PLIC_MAX_IRQ + 1 < s → s ≤ 1023 →
            addr ≠ wadd (wadd (PLIC_PPTR_BASE cfg) PLIC_PRIO) (PLIC_PRIO_PER_ID * s))
        ∧ (∀ h2 c2 w, PLIC_EN + (h2 + 1) * PLIC_EN_PER_HART ≤ PLIC_THRES → c2 ≤ 1 → w < 32 →
            addr ≠ wadd (wadd (PLIC_PPTR_BASE cfg) (plic_enable_offset cfg h2 c2)) (w * 4))
        ∧ (∀ h2 c2, h2 < 2 ^ 32 → c2 ≤ 1 →
            addr ≠ wadd (PLIC_PPTR_BASE cfg) (plic_thres_offset cfg h2 c2))) := by
  have hmain := plic_init_controller_traced_writes cfg b st v addr hw
  simp only [PLIC_HART_ID] at hmain
  refine ⟨hmain, fun hf hmax => ?_⟩
  have ha := variant_adjust_le cfg
  have ht := plic_thres_offset_small cfg cfg.CONFIG_FIRST_HART_ID PLIC_SVC_CONTEXT hf (le_refl 1)
  simp only [PLIC_SVC_CONTEXT] at ht
  rcases hmain with hca | ⟨i, hi1, hi2, hpr⟩
  · rw [hca, plic_claim_offset_eq]
    simp only [PLIC_SVC_CONTEXT, PLIC_PRIO, PLIC_PRIO_PER_ID]
    refine ⟨?_, ?_, ?_, ?_⟩
    · rw [wadd_wadd]
      apply wadd_ne_of_offsets <;> omega
    · intro s _ hs
      rw [wadd_wadd]
      apply wadd_ne_of_offsets <;> omega
    · intro h2 c2 w hv2 hc2 hw2
      simp only [PLIC_EN, PLIC_EN_PER_HART, PLIC_THRES] at hv2
      have he2 := plic_enable_offset_small cfg h2 c2 (by omega) hc2
      rw [wadd_wadd]
      apply wadd_ne_of_offsets <;> omega
    · intro h2 c2 hv2 hc2
      have ht2 := plic_thres_offset_small cfg h2 c2 hv2 hc2
      apply wadd_ne_of_offsets <;> omega
  · rw [hpr]
    simp only [PLIC_PRIO_PER_ID, PLIC_PRIO]
    refine ⟨?_, ?_, ?_, ?_⟩
    · rw [wadd_wadd, wadd_wadd]
      apply wadd_ne_of_offsets <;> omega
    · intro s _ hs
      rw [wadd_wadd, wadd_wadd]
      apply wadd_ne_of_offsets <;> omega
    · intro h2 c2 w hv2 hc2 hw2
      simp only [PLIC_EN, PLIC_EN_PER_HART, PLIC_THRES] at hv2
      have he2 := plic_enable_offset_small cfg h2 c2 (by omega) hc2
      rw [wadd_wadd, wadd_wadd]
      apply wadd_ne_of_offsets <;> omega
    · intro h2 c2 hv2 hc2
      have ht2 := plic_thres_offset_small cfg h2 c2 hv2 hc2
      rw [wadd_wadd]
      apply wadd_ne_of_offsets <;> omega

set_option maxRecDepth 100000 in
theorem hifiveCfg_trace_writes :
    Access.write 2 (wadd (wadd (PLIC_PPTR_BASE hifiveCfg) PLIC_PRIO) (PLIC_PRIO_PER_ID * 1))
      ∈ (plic_init_controller hifiveCfg memBus.traced (zeroMem, [])).2
    ∧ Access.write 2 (wadd (wadd (PLIC_PPTR_BASE hifiveCfg) PLIC_PRIO) (PLIC_PRIO_PER_ID * 54))
      ∈ (plic_init_controller hifiveCfg memBus.traced (zeroMem, [])).2 := by
  decide

theorem plic_init_controller_writes_witness :
    Access.write 2 (wadd (wadd (PLIC_PPTR_BASE hifiveCfg) PLIC_PRIO) (PLIC_PRIO_PER_ID * 1))
      ∈ (plic_init_controller hifiveCfg memBus.traced (zeroMem, [])).2
    ∧ (wadd (wadd (PLIC_PPTR_BASE hifiveCfg) PLIC_PRIO) (PLIC_PRIO_PER_ID * 1)
        = wadd (PLIC_PPTR_BASE hifiveCfg)
          (plic_claim_offset hifiveCfg hifiveCfg.CONFIG_FIRST_HART_ID PLIC_SVC_CONTEXT)
      ∨ ∃ i, 1 ≤ i ∧ i ≤ hifiveCfg.PLIC_MAX_IRQ + 1
          ∧ wadd (wadd (PLIC_PPTR_BASE hifiveCfg) PLIC_PRIO) (PLIC_PRIO_PER_ID * 1)
            = wadd (wadd (PLIC_PPTR_BASE hifiveCfg) PLIC_PRIO) (PLIC_PRIO_PER_ID * i))
    ∧ wadd (wadd (PLIC_PPTR_BASE hifiveCfg) PLIC_PRIO) (PLIC_PRIO_PER_ID * 1)
        ≠ wadd (wadd (PLIC_PPTR_BASE hifiveCfg) PLIC_PRIO) (PLIC_PRIO_PER_ID * 0) :=
  ⟨hifiveCfg_trace_writes.1,
    (plic_init_controller_writes hifiveCfg memBus zeroMem 2 _ hifiveCfg_trace_writes.1).1,
    ((plic_init_controller_writes hifiveCfg memBus zeroMem 2 _ hifiveCfg_trace_writes.1).2
      (by decide) (by decide)).1⟩

/-- Claim C15 fails as stated: on the HiFive build (`N = 53`) with
`PLIC_MAX_IRQ = 53`, `plic_init_controller` writes the priority register of
source 54, a source ID greater than `N`. -/
theorem plic_init_controller_writes_counterexample :
    ¬ ∀ v s : Nat, PLIC_NUM_INTERRUPTS hifiveCfg < s →
      Access.write v (wadd (wadd (PLIC_PPTR_BASE hifiveCfg) PLIC_PRIO) (PLIC_PRIO_PER_ID * s))
        ∉ (plic_init_controller hifiveCfg memBus.traced (zeroMem, [])).2 :=
  fun hall => hall 2 54 (by decide) hifiveCfg_trace_writes.2

end Plic
